import Mathlib

/-!
Verification of the guideline-retrieval and multi-stage generation pipeline of
`supabase/functions/optimize-clinical-doc/index.ts`.

Text-processing functions from the source are embedded over `List Char`
(a JS string is a sequence of code units; all inputs of interest here are
plain text).  JS regular-expression passes are embedded as character-level
scans that implement the same left-to-right, leftmost-match, global-replace
semantics.  Every definition is written to be executable (structural
recursion only), so concrete runs can be checked by `decide`/`rfl`.
-/

namespace OptimizeClinicalDoc

/-- The characters matched by the JS regex class `\s` (and trimmed by
`String.prototype.trim`): ASCII whitespace, NBSP, the Unicode space
separators, line/paragraph separators and the BOM. -/
def isWsJS (c : Char) : Bool :=
  c = ' ' ∨ c = '\t' ∨ c = '\n' ∨ c = '\r' ∨ c = '\x0b' ∨ c = '\x0c' ∨
  c = ' ' ∨ c = ' ' ∨ (' ' ≤ c ∧ c ≤ ' ') ∨
  c = ' ' ∨ c = ' ' ∨ c = ' ' ∨ c = ' ' ∨
  c = '　' ∨ c = '﻿'

/-- `text.replace(/\r\n/g, "\n")` (step 1 of `chunkText`'s normalization). -/
def repCRLF : List Char → List Char
  | '\r' :: '\n' :: rest => '\n' :: repCRLF rest
  | c :: rest => c :: repCRLF rest
  | [] => []

/-- Is the character a space or a tab (the JS class `[ \t]`). -/
def isSpTab (c : Char) : Bool := c = ' ' ∨ c = '\t'

/-- `text.replace(/[ \t]+/g, " ")`: collapse each maximal run of spaces and
tabs to a single space.  The flag records whether we are inside a run. -/
def collapseSpTabA : List Char → Bool → List Char
  | [], _ => []
  | c :: rest, inRun =>
    if isSpTab c then
      if inRun then collapseSpTabA rest true else ' ' :: collapseSpTabA rest true
    else c :: collapseSpTabA rest false

def collapseSpTab (l : List Char) : List Char := collapseSpTabA l false

/-- `s.trim()` over the JS whitespace class. -/
def trimJS (l : List Char) : List Char :=
  ((l.dropWhile isWsJS).reverse.dropWhile isWsJS).reverse

/-- The whitespace normalization at the top of `chunkText`:
`text.replace(/\r\n/g,"\n").replace(/[ \t]+/g," ").trim()`. -/
def normalizeJS (l : List Char) : List Char := trimJS (collapseSpTab (repCRLF l))

/-- `normalized.split(/\n{2,}/)`.  `pending` counts the newlines seen in the
current run, saturated at 2 (two or more newlines form one separator, a
single newline stays inside the paragraph). -/
def splitParasA : List Char → List Char → Nat → List (List Char)
  | [], acc, pending =>
    if pending = 1 then [acc ++ ['\n']] else if 2 ≤ pending then [acc, []] else [acc]
  | c :: rest, acc, pending =>
    if c = '\n' then splitParasA rest acc (min (pending + 1) 2)
    else if pending = 1 then splitParasA rest (acc ++ ['\n', c]) 0
    else if 2 ≤ pending then acc :: splitParasA rest [c] 0
    else splitParasA rest (acc ++ [c]) 0

def splitParas (l : List Char) : List (List Char) := splitParasA l [] 0

/-- The joiner used when accumulating paragraphs:
`current += (current ? "\n\n" : "") + trimmed`. -/
def joinPara (current trimmed : List Char) : List Char :=
  if current = [] then trimmed else current ++ '\n' :: '\n' :: trimmed

/-- The paragraph-accumulation loop of `chunkText` (first pass).  The
`maxLen * 1.2` comparison of the source is embedded exactly as the rational
inequality `len ≤ maxLen * 6/5`, i.e. `5 * len ≤ 6 * maxLen` (for the integer
lengths involved the IEEE-double product `maxLen * 1.2` compares identically
at the default `maxLen = 700`). -/
def accumParas (minLen maxLen : Nat) : List (List Char) → List Char → List (List Char)
  | [], current => if current = [] then [] else [current]
  | para :: rest, current =>
    if trimJS para = [] then accumParas minLen maxLen rest current
    else if current.length + (trimJS para).length + 1 ≤ maxLen then
      accumParas minLen maxLen rest (joinPara current (trimJS para))
    else if minLen ≤ current.length then
      current :: accumParas minLen maxLen rest (trimJS para)
    else if 5 * (current.length + (trimJS para).length + 1) ≤ 6 * maxLen then
      accumParas minLen maxLen rest (joinPara current (trimJS para))
    else if current = [] then accumParas minLen maxLen rest (trimJS para)
    else current :: accumParas minLen maxLen rest (trimJS para)

/-- Is the character one of `.`, `!`, `?` (the lookbehind class of the
sentence-split regex). -/
def isPunctJS (c : Char) : Bool := c = '.' ∨ c = '!' ∨ c = '?'

/-- `chunk.split(/(?<=[.!?])\s+/)`: split on each maximal whitespace run
immediately preceded by `.`, `!` or `?`.  `prev` is the previous character
(`'\x00'` at the start, where the lookbehind cannot match), `inSep` means we
are consuming the whitespace run of a separator. -/
def splitSentsA : List Char → Char → List Char → Bool → List (List Char)
  | [], _, acc, _ => [acc]
  | c :: rest, prev, acc, inSep =>
    if inSep then
      if isWsJS c then splitSentsA rest prev acc true
      else splitSentsA rest c [c] false
    else if isWsJS c ∧ isPunctJS prev then
      acc :: splitSentsA rest '\x00' [] true
    else splitSentsA rest c (acc ++ [c]) false

def splitSents (l : List Char) : List (List Char) := splitSentsA l '\x00' [] false

/-- The joiner of the sentence re-accumulation: `buf += (buf ? " " : "") + s`. -/
def joinSent (buf s : List Char) : List Char :=
  if buf = [] then s else buf ++ ' ' :: s

/-- The sentence re-accumulation loop of `chunkText`'s post-pass. -/
def accumSents (maxLen : Nat) : List (List Char) → List Char → List (List Char)
  | [], buf => if buf = [] then [] else [buf]
  | s :: rest, buf =>
    if buf.length + s.length + 1 ≤ maxLen then accumSents maxLen rest (joinSent buf s)
    else if buf = [] then accumSents maxLen rest s
    else buf :: accumSents maxLen rest s

/-- `chunkText(text, minLen = 400, maxLen = 700)` from the source: normalize,
split into paragraphs, greedily accumulate them, then re-split any chunk
still longer than `maxLen` on sentence boundaries. -/
def chunkText (text : List Char) (minLen maxLen : Nat) : List (List Char) :=
  let normalized := normalizeJS text
  let paragraphs := splitParas normalized
  let chunks := accumParas minLen maxLen paragraphs []
  chunks.flatMap fun chunk =>
    if chunk.length ≤ maxLen then [chunk] else accumSents maxLen (splitSents chunk) []

/-! ### Character preservation through the chunker (claims C4, C5) -/

/-- The subsequence of non-whitespace characters of a text. -/
def nonWs (l : List Char) : List Char := l.filter (fun c => !(isWsJS c))

theorem nonWs_append (l₁ l₂ : List Char) : nonWs (l₁ ++ l₂) = nonWs l₁ ++ nonWs l₂ :=
  List.filter_append _ _

theorem nonWs_ws_cons {c : Char} (h : isWsJS c = true) (l : List Char) :
    nonWs (c :: l) = nonWs l := by
  simp [nonWs, List.filter, h]

theorem nonWs_dropWhile_ws (l : List Char) : nonWs (l.dropWhile isWsJS) = nonWs l := by
  induction l with
  | nil => rfl
  | cons c rest ih =>
    by_cases h : isWsJS c = true
    · rw [List.dropWhile_cons_of_pos h, ih, nonWs_ws_cons h]
    · rw [List.dropWhile_cons_of_neg h]

theorem nonWs_reverse (l : List Char) : nonWs l.reverse = (nonWs l).reverse :=
  List.filter_reverse _ _

theorem nonWs_trimJS (l : List Char) : nonWs (trimJS l) = nonWs l := by
  unfold trimJS
  rw [nonWs_reverse, nonWs_dropWhile_ws, nonWs_reverse, List.reverse_reverse,
    nonWs_dropWhile_ws]

theorem nonWs_of_trimJS_nil {l : List Char} (h : trimJS l = []) : nonWs l = [] := by
  rw [← nonWs_trimJS, h]; rfl

theorem nonWs_nil : nonWs [] = [] := rfl

theorem nonWs_cons_eq (c : Char) (l : List Char) :
    nonWs (c :: l) = nonWs [c] ++ nonWs l := by
  simp only [nonWs, List.filter_cons]
  split <;> simp

theorem nonWs_flatten_splitParasA (l : List Char) :
    ∀ (acc : List Char) (pending : Nat),
      nonWs (splitParasA l acc pending).flatten = nonWs acc ++ nonWs l := by
  induction l with
  | nil =>
    intro acc pending
    unfold splitParasA
    split
    · rw [List.flatten_cons, List.flatten_nil, List.append_nil, nonWs_append,
        nonWs_ws_cons (by decide)]
    · split
      · simp [nonWs_append, nonWs_nil]
      · simp [nonWs_nil]
  | cons c rest ih =>
    intro acc pending
    unfold splitParasA
    split
    · rename_i hc
      rw [ih, hc, nonWs_ws_cons (by decide)]
    · split
      · rw [ih, nonWs_append, nonWs_ws_cons (by decide) [c], nonWs_cons_eq c rest,
          List.append_assoc]
      · split
        · rw [List.flatten_cons, nonWs_append, ih, nonWs_cons_eq c rest]
        · rw [ih, nonWs_append, nonWs_cons_eq c rest, List.append_assoc]

theorem nonWs_flatten_splitParas (l : List Char) :
    nonWs (splitParas l).flatten = nonWs l := by
  rw [splitParas, nonWs_flatten_splitParasA]; rfl

theorem nonWs_joinPara (current trimmed : List Char) :
    nonWs (joinPara current trimmed) = nonWs current ++ nonWs trimmed := by
  unfold joinPara
  split
  · rename_i h; subst h; rfl
  · rw [nonWs_append, nonWs_ws_cons (by decide), nonWs_ws_cons (by decide)]

theorem nonWs_flatten_accumParas (minLen maxLen : Nat) (paras : List (List Char)) :
    ∀ current : List Char,
      nonWs (accumParas minLen maxLen paras current).flatten =
        nonWs current ++ nonWs paras.flatten := by
  induction paras with
  | nil =>
    intro current
    unfold accumParas
    split
    · rename_i h; subst h; rfl
    · simp [nonWs_append, nonWs]
  | cons para rest ih =>
    intro current
    unfold accumParas
    split
    · rename_i h
      rw [ih, List.flatten_cons, nonWs_append, ← nonWs_trimJS para, h]
      rfl
    · split
      · rw [ih, nonWs_joinPara, List.flatten_cons, nonWs_append, nonWs_trimJS,
          List.append_assoc]
      · split
        · rw [List.flatten_cons, nonWs_append, List.flatten_cons, nonWs_append, ih,
            nonWs_trimJS]
        · split
          · rw [ih, nonWs_joinPara, List.flatten_cons, nonWs_append, nonWs_trimJS,
              List.append_assoc]
          · split
            · rename_i h; subst h
              rw [ih, List.flatten_cons, nonWs_append, nonWs_trimJS]
              rfl
            · rw [List.flatten_cons, nonWs_append, List.flatten_cons, nonWs_append, ih,
                nonWs_trimJS]

theorem nonWs_flatten_splitSentsA (l : List Char) :
    ∀ (prev : Char) (acc : List Char) (inSep : Bool), (inSep = true → acc = []) →
      nonWs (splitSentsA l prev acc inSep).flatten = nonWs acc ++ nonWs l := by
  induction l with
  | nil =>
    intro prev acc inSep _
    unfold splitSentsA
    rw [List.flatten_cons, List.flatten_nil, List.append_nil, nonWs_nil, List.append_nil]
  | cons c rest ih =>
    intro prev acc inSep hsep
    unfold splitSentsA
    split
    · rename_i hin
      rw [hsep hin]
      split
      · rename_i hws
        rw [ih _ _ _ (fun _ => rfl), nonWs_ws_cons hws]
      · rw [ih _ _ _ (fun h => by cases h), nonWs_cons_eq c rest]
        rfl
    · split
      · rename_i hsplit
        rw [List.flatten_cons, nonWs_append, ih _ _ _ (fun _ => rfl), nonWs_nil,
          List.nil_append, nonWs_ws_cons hsplit.1]
      · rw [ih _ _ _ (fun h => by cases h), nonWs_append, nonWs_cons_eq c rest,
          List.append_assoc]

theorem nonWs_flatten_splitSents (l : List Char) :
    nonWs (splitSents l).flatten = nonWs l := by
  rw [splitSents, nonWs_flatten_splitSentsA _ _ _ _ (fun h => by cases h)]; rfl

theorem nonWs_joinSent (buf s : List Char) :
    nonWs (joinSent buf s) = nonWs buf ++ nonWs s := by
  unfold joinSent
  split
  · rename_i h; subst h; rfl
  · rw [nonWs_append, nonWs_ws_cons (by decide)]

theorem nonWs_flatten_accumSents (maxLen : Nat) (sents : List (List Char)) :
    ∀ buf : List Char,
      nonWs (accumSents maxLen sents buf).flatten = nonWs buf ++ nonWs sents.flatten := by
  induction sents with
  | nil =>
    intro buf
    unfold accumSents
    split
    · rename_i h; subst h; rfl
    · simp [nonWs_append, nonWs]
  | cons s rest ih =>
    intro buf
    unfold accumSents
    split
    · rw [ih, nonWs_joinSent, List.flatten_cons, nonWs_append, List.append_assoc]
    · split
      · rename_i h; subst h
        rw [ih, List.flatten_cons, nonWs_append]
        rfl
      · rw [List.flatten_cons, nonWs_append, List.flatten_cons, nonWs_append, ih]

theorem nonWs_flatten_chunkText (text : List Char) (minLen maxLen : Nat) :
    nonWs (chunkText text minLen maxLen).flatten = nonWs (normalizeJS text) := by
  unfold chunkText
  have hstep : ∀ chunks : List (List Char),
      nonWs (chunks.flatMap fun chunk =>
        if chunk.length ≤ maxLen then [chunk]
        else accumSents maxLen (splitSents chunk) []).flatten = nonWs chunks.flatten := by
    intro chunks
    induction chunks with
    | nil => rfl
    | cons c rest ih =>
      rw [List.flatMap_cons, List.flatten_append, nonWs_append, ih, List.flatten_cons,
        nonWs_append]
      congr 1
      split
      · simp
      · rw [nonWs_flatten_accumSents, nonWs_flatten_splitSents]; rfl
  rw [hstep, nonWs_flatten_accumParas, nonWs_flatten_splitParas]
  rfl

/-- `noBreakFrom prev l` holds when scanning `l` with previous character
`prev` meets no sentence-split boundary (no whitespace character immediately
preceded by `.`, `!` or `?`). -/
def noBreakFrom : Char → List Char → Bool
  | _, [] => true
  | prev, c :: rest => !(isWsJS c ∧ isPunctJS prev) && noBreakFrom c rest

theorem splitSentsA_of_noBreak (l : List Char) :
    ∀ (prev : Char) (acc : List Char), noBreakFrom prev l = true →
      splitSentsA l prev acc false = [acc ++ l] := by
  induction l with
  | nil => intro prev acc _; simp [splitSentsA]
  | cons c rest ih =>
    intro prev acc h
    rw [noBreakFrom, Bool.and_eq_true, Bool.not_eq_true', decide_eq_false_iff_not] at h
    unfold splitSentsA
    rw [if_neg (by simp), if_neg h.1, ih c _ h.2]
    simp

theorem splitSents_of_noBreak {p : List Char} (h : noBreakFrom '\x00' p = true) :
    splitSents p = [p] := by
  rw [splitSents, splitSentsA_of_noBreak _ _ _ h, List.nil_append]

theorem noBreakFrom_snoc (acc : List Char) :
    ∀ (prev c : Char),
      noBreakFrom prev (acc ++ [c]) =
        (noBreakFrom prev acc && !(isWsJS c ∧ isPunctJS (acc.getLastD prev))) := by
  induction acc with
  | nil => intro prev c; simp [noBreakFrom]
  | cons a acc ih =>
    intro prev c
    rw [List.cons_append, noBreakFrom, noBreakFrom, ih a c, List.getLastD_cons,
      Bool.and_assoc]

theorem splitSentsA_pieces (l : List Char) :
    ∀ (prev : Char) (acc : List Char) (inSep : Bool),
      (inSep = true → acc = []) →
      (inSep = false → prev = acc.getLastD '\x00' ∧ noBreakFrom '\x00' acc = true) →
      ∀ p ∈ splitSentsA l prev acc inSep, noBreakFrom '\x00' p = true := by
  induction l with
  | nil =>
    intro prev acc inSep hsep hacc p hp
    rw [splitSentsA] at hp
    rcases List.mem_singleton.mp hp with rfl
    cases inSep with
    | true => rw [hsep rfl]; rfl
    | false => exact (hacc rfl).2
  | cons c rest ih =>
    intro prev acc inSep hsep hacc p hp
    rw [splitSentsA] at hp
    split at hp
    · rename_i hin
      split at hp
      · exact ih prev acc true (fun _ => hsep hin) (fun h => nomatch h) p hp
      · refine ih c [c] false (fun h => nomatch h) (fun _ => ⟨?_, ?_⟩) p hp
        · rfl
        · simp [noBreakFrom, isPunctJS]
    · rename_i hin
      have hinf : inSep = false := by
        cases inSep
        · rfl
        · exact absurd rfl hin
      have hfacts := hacc hinf
      split at hp
      · rcases List.mem_cons.mp hp with rfl | hp
        · exact hfacts.2
        · exact ih '\x00' [] true (fun _ => rfl) (fun h => nomatch h) p hp
      · rename_i hnb
        refine ih c (acc ++ [c]) false (fun h => nomatch h) (fun _ => ⟨?_, ?_⟩) p hp
        · exact (List.getLastD_concat _ _ _).symm
        · rw [noBreakFrom_snoc, ← hfacts.1, hfacts.2, Bool.true_and, Bool.not_eq_true',
            decide_eq_false_iff_not]
          exact hnb

theorem splitSents_pieces (l : List Char) :
    ∀ p ∈ splitSents l, noBreakFrom '\x00' p = true :=
  splitSentsA_pieces l _ _ _ (fun _ => rfl) (fun _ => ⟨rfl, rfl⟩)

theorem joinSent_length (buf s : List Char) :
    (joinSent buf s).length ≤ buf.length + s.length + 1 := by
  unfold joinSent
  split
  · omega
  · simp only [List.length_append, List.length_cons]
    omega

theorem accumSents_mem (maxLen : Nat) (sents : List (List Char))
    (hs : ∀ s ∈ sents, noBreakFrom '\x00' s = true) :
    ∀ buf, (buf = [] ∨ buf.length ≤ maxLen ∨ noBreakFrom '\x00' buf = true) →
      ∀ c ∈ accumSents maxLen sents buf,
        c ≠ [] ∧ (c.length ≤ maxLen ∨ noBreakFrom '\x00' c = true) := by
  induction sents with
  | nil =>
    intro buf hbuf c hc
    rw [accumSents] at hc
    split at hc
    · cases hc
    · rename_i hne
      rcases List.mem_singleton.mp hc with rfl
      refine ⟨hne, ?_⟩
      rcases hbuf with h | h
      · exact absurd h hne
      · exact h
  | cons s rest ih =>
    intro buf hbuf c hc
    have hs' : ∀ t ∈ rest, noBreakFrom '\x00' t = true :=
      fun t ht => hs t (List.mem_cons_of_mem _ ht)
    rw [accumSents] at hc
    split at hc
    · rename_i hlen
      refine ih hs' _ (Or.inr (Or.inl ?_)) c hc
      calc (joinSent buf s).length ≤ buf.length + s.length + 1 := joinSent_length _ _
        _ ≤ maxLen := hlen
    · split at hc
      · exact ih hs' _ (Or.inr (Or.inr (hs s (List.mem_cons_self _ _)))) c hc
      · rename_i hne
        rcases List.mem_cons.mp hc with rfl | hc
        · refine ⟨hne, ?_⟩
          rcases hbuf with h | h
          · exact absurd h hne
          · exact h
        · exact ih hs' _ (Or.inr (Or.inr (hs s (List.mem_cons_self _ _)))) c hc

theorem accumParas_mem {minLen : Nat} (maxLen : Nat) (h1 : 1 ≤ minLen)
    (paras : List (List Char)) :
    ∀ current, ∀ c ∈ accumParas minLen maxLen paras current, c ≠ [] := by
  induction paras with
  | nil =>
    intro current c hc
    rw [accumParas] at hc
    split at hc
    · cases hc
    · rename_i hne
      rcases List.mem_singleton.mp hc with rfl
      exact hne
  | cons para rest ih =>
    intro current c hc
    rw [accumParas] at hc
    split at hc
    · exact ih _ c hc
    · split at hc
      · exact ih _ c hc
      · split at hc
        · rename_i hlen
          rcases List.mem_cons.mp hc with rfl | hc
          · intro hnil; rw [hnil] at hlen; simp at hlen; omega
          · exact ih _ c hc
        · split at hc
          · exact ih _ c hc
          · split at hc
            · exact ih _ c hc
            · rename_i hne
              rcases List.mem_cons.mp hc with rfl | hc
              · exact hne
              · exact ih _ c hc

theorem chunkText_mem (text : List Char) {minLen : Nat} (maxLen : Nat)
    (h1 : 1 ≤ minLen) :
    ∀ c ∈ chunkText text minLen maxLen,
      c ≠ [] ∧ (c.length ≤ maxLen ∨ splitSents c = [c]) := by
  intro c hc
  unfold chunkText at hc
  rcases List.mem_flatMap.mp hc with ⟨chunk, hchunk, hstep⟩
  split at hstep
  · rename_i hlen
    rcases List.mem_singleton.mp hstep with rfl
    exact ⟨accumParas_mem maxLen h1 _ _ c hchunk, Or.inl hlen⟩
  · have := accumSents_mem maxLen (splitSents chunk) (splitSents_pieces chunk) []
      (Or.inl rfl) c hstep
    refine ⟨this.1, ?_⟩
    rcases this.2 with h | h
    · exact Or.inl h
    · exact Or.inr (splitSents_of_noBreak h)

/-- C4, counterexample.  The claim states that concatenating all chunks,
ignoring the inserted joiners, reproduces the whitespace-normalized input
exactly, with no characters lost.  For the input `"a \n\nb"` the normalized
text is `"a \n\nb"` (5 characters: the space survives normalization because
`[ \t]+` collapsing keeps one space and the trailing space of the first
paragraph is not adjacent to the string ends), but the single produced chunk
is `"a\n\nb"` (4 characters): the space was dropped by the per-paragraph
`trim()`.  Removing inserted joiners from the concatenation can only shorten
it further, so no reading of the claim recovers the normalized input: a
character of the normalized input was lost. -/
theorem c4_concat_counterexample :
    chunkText ("a \n\nb".data) 400 700 = ["a\n\nb".data] ∧
    normalizeJS ("a \n\nb".data) = "a \n\nb".data ∧
    (chunkText ("a \n\nb".data) 400 700).flatten.length <
      (normalizeJS ("a \n\nb".data)).length := by
  refine ⟨?_, ?_, ?_⟩ <;> decide

/-- C4, amended: for every input text and every `minLen`/`maxLen`,
concatenating all chunks produced by `chunkText` reproduces the
whitespace-normalized input up to whitespace: the subsequence of
non-whitespace characters is preserved exactly (no character lost,
duplicated, or reordered); whitespace adjacent to paragraph or sentence
boundaries may be dropped or rewritten by the inserted joiners. -/
theorem c4_concat_nonws (text : List Char) (minLen maxLen : Nat) :
    nonWs (chunkText text minLen maxLen).flatten = nonWs (normalizeJS text) :=
  nonWs_flatten_chunkText text minLen maxLen

/-- C5, counterexample.  The claim allows at most one chunk longer than
`max(maxLen, maxLen*1.2)`.  With `minLen = 1`, `maxLen = 5` the input
`"aaaaaaaa. bbbbbbbb"` (two long sentences in one paragraph) produces two
chunks, of lengths 9 and 8, both exceeding `max(5, 6) = 6`: the sentence
re-split post-pass emits one oversized chunk per unsplittable sentence, not
at most one overall.  (The same phenomenon occurs at the default parameters
400/700 for two sentences of 850 characters each.) -/
theorem c5_bounds_counterexample :
    chunkText ("aaaaaaaa. bbbbbbbb".data) 1 5 = ["aaaaaaaa.".data, "bbbbbbbb".data] ∧
    ("aaaaaaaa.".data.length > 6 ∧ "bbbbbbbb".data.length > 6) := by
  refine ⟨?_, ?_, ?_⟩ <;> decide

/-- C5, amended: for every input text and parameters with `1 ≤ minLen`, no
chunk produced by `chunkText` is empty, and every chunk either has length at
most `maxLen` or contains no internal sentence break (re-splitting it on
sentence boundaries returns it unchanged, i.e. `splitSents c = [c]`); there
may be several such oversized sentence-atom chunks, and an oversized chunk
may still contain a paragraph joiner. -/
theorem c5_bounds (text : List Char) (minLen maxLen : Nat) (h1 : 1 ≤ minLen) :
    ∀ c ∈ chunkText text minLen maxLen,
      c ≠ [] ∧ (c.length ≤ maxLen ∨ splitSents c = [c]) :=
  chunkText_mem text maxLen h1

/-- C5, witness: the amended statement applied at a concrete input. -/
theorem c5_bounds_witness :
    (1 ≤ 400) ∧
    ("hi. there".data ≠ ([] : List Char) ∧
      ("hi. there".data.length ≤ 700 ∨ splitSents ("hi. there".data) = ["hi. there".data])) :=
  ⟨by decide, c5_bounds ("hi. there".data) 400 700 (by decide) ("hi. there".data) (by decide)⟩

/-! ### Tokenization and BM25-style ranking (claims C3, C6) -/

/-- One character of `tokenize`'s normalization
`text.toLowerCase().replace(/[^a-z0-9\s]/g, " ")`: lowercase (ASCII, as
`Char.toLower`), keep `a-z`/`0-9`, keep whitespace, replace everything else
by a space. -/
def tokenChar (c : Char) : Char :=
  let lc := c.toLower
  if ('a' ≤ lc ∧ lc ≤ 'z') ∨ ('0' ≤ lc ∧ lc ≤ '9') then lc
  else if isWsJS c then c else ' '

/-- `str.split(/\s+/)` (JS semantics: a leading or trailing separator run
produces an empty piece; all pieces are afterwards length-filtered, so the
empty pieces never survive). -/
def splitWsA : List Char → List Char → Bool → List (List Char)
  | [], acc, _ => [acc]
  | c :: rest, acc, inSep =>
    if isWsJS c then
      if inSep then splitWsA rest acc true else acc :: splitWsA rest [] true
    else splitWsA rest (acc ++ [c]) false

/-- `tokenize(text)` from the source: lowercase, strip punctuation to
spaces, split on whitespace, keep tokens of length `> 2`. -/
def tokenize (text : List Char) : List (List Char) :=
  (splitWsA (text.map tokenChar) [] false).filter (fun t => 2 < t.length)

/-- `df[t]`: the number of chunks whose token list contains `t` (the source
counts each chunk once via a `Set`). -/
def dfCount (t : List Char) (chunkTokensList : List (List (List Char))) : Nat :=
  (chunkTokensList.filter (fun tokens => t ∈ tokens)).length

/-- BM25 idf of the source: `Math.log((N - df + 0.5) / (df + 0.5) + 1)`.
The transcendental `Math.log` is abstracted as the parameter `lg`; the
theorems below hold for every `lg`, or assume only `0 < lg x` for `1 < x`,
which is true of the natural logarithm. -/
def idf (lg : ℚ → ℚ) (n dfT : Nat) : ℚ :=
  lg (((n : ℚ) - (dfT : ℚ) + 1/2) / ((dfT : ℚ) + 1/2) + 1)

/-- BM25 term saturation of the source with `k1 = 1.5`, `b = 0.75`:
`(tf * (k1 + 1)) / (tf + k1 * (1 - b + b * dl / avgDl))`. -/
def tfNorm (tf dl : Nat) (avgDl : ℚ) : ℚ :=
  ((tf : ℚ) * (3/2 + 1)) / ((tf : ℚ) + (3/2) * (1 - 3/4 + (3/4) * (dl : ℚ) / avgDl))

/-- The score of one chunk: the source loops over the query tokens (with
multiplicity), skips tokens absent from the chunk (`if (!tf[qt]) continue`)
and otherwise adds `idf * tfNorm`. -/
def chunkScore (lg : ℚ → ℚ) (qTokens : List (List Char))
    (chunkTokensList : List (List (List Char))) (avgDl : ℚ)
    (tokens : List (List Char)) : ℚ :=
  (qTokens.map fun qt =>
    if tokens.count qt = 0 then 0
    else idf lg chunkTokensList.length (dfCount qt chunkTokensList) *
      tfNorm (tokens.count qt) tokens.length avgDl).sum

/-- The score of the chunk at index `i` (with the source's
`avgDl = Σ tokenize(c).length / N`). -/
def bm25ScoreAt (lg : ℚ → ℚ) (query : List Char) (chunks : List (List Char))
    (i : Nat) : ℚ :=
  chunkScore lg (tokenize query) (chunks.map tokenize)
    ((((chunks.map tokenize).map List.length).sum : ℚ) / (chunks.length : ℚ))
    ((chunks.map tokenize).getD i [])

/-- The `scores` array of the source: one `(index, score)` pair per chunk,
in chunk order. -/
def bm25Scores (lg : ℚ → ℚ) (query : List Char) (chunks : List (List Char)) :
    List (Nat × ℚ) :=
  (List.range chunks.length).map fun i => (i, bm25ScoreAt lg query chunks i)

/-- `scores.sort((a, b) => b.score - a.score)`: JS `Array.prototype.sort` is
stable, and every entry carries a distinct original index, so any stable
descending-by-score sort produces exactly the insertion sort with the
"does not come after" relation `b.2 ≤ a.2`. -/
def bm25Sorted (lg : ℚ → ℚ) (query : List Char) (chunks : List (List Char)) :
    List (Nat × ℚ) :=
  (bm25Scores lg query chunks).insertionSort (fun a b => b.2 ≤ a.2)

/-- `scoreBM25(query, chunks, k)` from the source: early-return `[]` for no
chunks, otherwise sort descending by score, `slice(0, k)` and map each
surviving index back to its chunk. -/
def scoreBM25 (lg : ℚ → ℚ) (query : List Char) (chunks : List (List Char))
    (k : Nat) : List (List Char) :=
  if chunks.length = 0 then []
  else ((bm25Sorted lg query chunks).take k).map fun p => chunks.getD p.1 []

/-- The ordering the ranker's output satisfies: strictly greater score, or
equal score and smaller original index (stability tie-break). -/
def relOrder (a b : Nat × ℚ) : Prop := b.2 < a.2 ∨ (a.2 = b.2 ∧ a.1 < b.1)

theorem relOrder_le {a b : Nat × ℚ} (h : relOrder a b) : b.2 ≤ a.2 := by
  rcases h with h | ⟨h, _⟩
  · exact le_of_lt h
  · exact le_of_eq h.symm

theorem pairwise_fst_bm25Scores (lg : ℚ → ℚ) (query : List Char)
    (chunks : List (List Char)) :
    (bm25Scores lg query chunks).Pairwise (fun a b => a.1 < b.1) := by
  unfold bm25Scores
  exact List.pairwise_map.mpr (by simpa using List.pairwise_lt_range _)

theorem pairwise_orderedInsert_relOrder (x : Nat × ℚ) (ys : List (Nat × ℚ))
    (hys : ys.Pairwise relOrder) (hidx : ∀ y ∈ ys, x.1 < y.1) :
    (List.orderedInsert (fun a b => b.2 ≤ a.2) x ys).Pairwise relOrder := by
  induction ys with
  | nil => simp [List.orderedInsert]
  | cons y ys ih =>
    have hys' := List.pairwise_cons.mp hys
    rw [List.orderedInsert]
    split
    · rename_i hxy
      refine List.pairwise_cons.mpr ⟨?_, hys⟩
      intro z hz
      have hzx : z.2 ≤ x.2 := by
        rcases List.mem_cons.mp hz with rfl | hz'
        · exact hxy
        · exact le_trans (relOrder_le (hys'.1 z hz')) hxy
      rcases lt_or_eq_of_le hzx with h | h
      · exact Or.inl h
      · exact Or.inr ⟨h.symm, hidx _ hz⟩
    · rename_i hxy
      push_neg at hxy
      refine List.pairwise_cons.mpr ⟨?_, ?_⟩
      · intro z hz
        rcases (List.mem_orderedInsert _).mp hz with rfl | hz'
        · exact Or.inl hxy
        · exact hys'.1 z hz'
      · exact ih hys'.2 (fun z hz => hidx z (List.mem_cons_of_mem _ hz))

theorem pairwise_insertionSort_relOrder (l : List (Nat × ℚ))
    (hl : l.Pairwise (fun a b => a.1 < b.1)) :
    (l.insertionSort (fun a b => b.2 ≤ a.2)).Pairwise relOrder := by
  induction l with
  | nil => simp [List.insertionSort]
  | cons x l ih =>
    have hl' := List.pairwise_cons.mp hl
    rw [List.insertionSort]
    refine pairwise_orderedInsert_relOrder x _ (ih hl'.2) ?_
    intro y hy
    exact hl'.1 y ((List.perm_insertionSort _ l).mem_iff.mp hy)

theorem length_bm25Sorted (lg : ℚ → ℚ) (query : List Char)
    (chunks : List (List Char)) :
    (bm25Sorted lg query chunks).length = chunks.length := by
  unfold bm25Sorted bm25Scores
  rw [List.length_insertionSort, List.length_map, List.length_range]

/-- C3: for every query, chunk list and `k`, the ranker returns at most
`min(k, number of chunks)` chunks, each drawn from the input list; the
underlying sorted score list is a permutation of the per-chunk scores and is
ordered by strictly decreasing score with ties broken by the original chunk
index (stable sort); the empty chunk list yields the empty result.  This
holds for every abstraction `lg` of `Math.log`. -/
theorem c3_rank_contract (lg : ℚ → ℚ) (query : List Char)
    (chunks : List (List Char)) (k : Nat) :
    (scoreBM25 lg query chunks k).length ≤ min k chunks.length ∧
    (∀ c ∈ scoreBM25 lg query chunks k, c ∈ chunks) ∧
    (bm25Sorted lg query chunks).Perm (bm25Scores lg query chunks) ∧
    ((bm25Sorted lg query chunks).take k).Pairwise relOrder ∧
    (chunks = [] → scoreBM25 lg query chunks k = []) := by
  refine ⟨?_, ?_, ?_, ?_, ?_⟩
  · unfold scoreBM25
    split
    · simp
    · rw [List.length_map, List.length_take, length_bm25Sorted]
  · intro c hc
    unfold scoreBM25 at hc
    split at hc
    · cases hc
    · rcases List.mem_map.mp hc with ⟨p, hp, rfl⟩
      have hp2 : p ∈ bm25Scores lg query chunks :=
        (List.perm_insertionSort _ _).mem_iff.mp (List.mem_of_mem_take hp)
      rcases List.mem_map.mp hp2 with ⟨i, hi, rfl⟩
      have hilt : i < chunks.length := List.mem_range.mp hi
      rw [List.getD_eq_getElem _ _ hilt]
      exact List.getElem_mem _
  · exact List.perm_insertionSort _ _
  · exact List.Pairwise.sublist (List.take_sublist _ _)
      (pairwise_insertionSort_relOrder _ (pairwise_fst_bm25Scores lg query chunks))
  · intro h
    subst h
    rfl

theorem tokensAt_eq (chunks : List (List Char)) {j : Nat} (hj : j < chunks.length) :
    (chunks.map tokenize).getD j [] = tokenize (chunks.getD j []) := by
  rw [List.getD_eq_getElem _ _ (by simpa using hj), List.getD_eq_getElem _ _ hj,
    List.getElem_map]

theorem bm25ScoreAt_eq_zero (lg : ℚ → ℚ) (query : List Char)
    (chunks : List (List Char)) (j : Nat) (hj : j < chunks.length)
    (h : ∀ q ∈ tokenize query, q ∉ tokenize (chunks.getD j [])) :
    bm25ScoreAt lg query chunks j = 0 := by
  unfold bm25ScoreAt chunkScore
  apply List.sum_eq_zero
  intro x hx
  rcases List.mem_map.mp hx with ⟨q, hq, rfl⟩
  rw [if_pos]
  rw [tokensAt_eq chunks hj, List.count_eq_zero]
  exact h q hq

theorem list_sum_pos_of_mem {l : List ℚ} (h0 : ∀ x ∈ l, 0 ≤ x) {x : ℚ}
    (hx : x ∈ l) (hpos : 0 < x) : 0 < l.sum := by
  induction l with
  | nil => cases hx
  | cons a l ih =>
    rw [List.sum_cons]
    have hsum : 0 ≤ l.sum := List.sum_nonneg (fun y hy => h0 y (List.mem_cons_of_mem _ hy))
    rcases List.mem_cons.mp hx with rfl | hx'
    · linarith
    · have ha : 0 ≤ a := h0 a (List.mem_cons_self _ _)
      have := ih (fun y hy => h0 y (List.mem_cons_of_mem _ hy)) hx'
      linarith

theorem bm25ScoreAt_pos (lg : ℚ → ℚ) (hlg : ∀ x : ℚ, 1 < x → 0 < lg x)
    (query : List Char) (chunks : List (List Char)) (i : Nat)
    (hi : i < chunks.length) (t : List Char) (htq : t ∈ tokenize query)
    (hti : t ∈ tokenize (chunks.getD i [])) :
    0 < bm25ScoreAt lg query chunks i := by
  have hn : 0 < chunks.length := lt_of_le_of_lt (Nat.zero_le i) hi
  have htok_mem : tokenize (chunks.getD i []) ∈ chunks.map tokenize := by
    rw [← tokensAt_eq chunks hi,
      List.getD_eq_getElem _ _ (by simpa using hi)]
    exact List.getElem_mem _
  have havg : 0 < ((((chunks.map tokenize).map List.length).sum : ℚ) /
      (chunks.length : ℚ)) := by
    apply div_pos
    · have h1 : 1 ≤ (tokenize (chunks.getD i [])).length :=
        List.length_pos.mpr (List.ne_nil_of_mem hti)
      have h2 : (tokenize (chunks.getD i [])).length ≤
          ((chunks.map tokenize).map List.length).sum :=
        List.single_le_sum (fun x _ => Nat.zero_le x) _
          (List.mem_map_of_mem _ htok_mem)
      have h3 : 1 ≤ ((chunks.map tokenize).map List.length).sum := le_trans h1 h2
      exact_mod_cast lt_of_lt_of_le Nat.zero_lt_one h3
    · exact_mod_cast hn
  have hidf : ∀ q : List Char, q ∈ tokenize (chunks.getD i []) →
      0 < idf lg (chunks.map tokenize).length (dfCount q (chunks.map tokenize)) := by
    intro q hq
    have hdf1 : 1 ≤ dfCount q (chunks.map tokenize) := by
      have hmem : tokenize (chunks.getD i []) ∈
          (chunks.map tokenize).filter (fun tokens => q ∈ tokens) :=
        List.mem_filter.mpr ⟨htok_mem, by simpa using hq⟩
      have := List.length_pos.mpr (List.ne_nil_of_mem hmem)
      unfold dfCount
      omega
    have hdfn : dfCount q (chunks.map tokenize) ≤ (chunks.map tokenize).length :=
      List.length_filter_le _ _
    unfold idf
    apply hlg
    have hden : (0:ℚ) < (dfCount q (chunks.map tokenize) : ℚ) + 1/2 := by positivity
    have hnum : (0:ℚ) < ((chunks.map tokenize).length : ℚ) -
        (dfCount q (chunks.map tokenize) : ℚ) + 1/2 := by
      have : (dfCount q (chunks.map tokenize) : ℚ) ≤
          ((chunks.map tokenize).length : ℚ) := by exact_mod_cast hdfn
      linarith
    have := div_pos hnum hden
    linarith
  have htfn : ∀ tf dl : Nat, 1 ≤ tf →
      0 < tfNorm tf dl ((((chunks.map tokenize).map List.length).sum : ℚ) /
        (chunks.length : ℚ)) := by
    intro tf dl htf
    unfold tfNorm
    have h1 : (1:ℚ) ≤ (tf : ℚ) := by exact_mod_cast htf
    have h2 : (0:ℚ) ≤ 3 / 4 * (dl : ℚ) /
        ((((chunks.map tokenize).map List.length).sum : ℚ) / (chunks.length : ℚ)) :=
      div_nonneg (by positivity) (le_of_lt havg)
    apply div_pos
    · nlinarith
    · linarith
  unfold bm25ScoreAt chunkScore
  rw [tokensAt_eq chunks hi]
  have hterm : ∀ q : List Char,
      0 ≤ if (tokenize (chunks.getD i [])).count q = 0 then 0
        else idf lg (chunks.map tokenize).length (dfCount q (chunks.map tokenize)) *
          tfNorm ((tokenize (chunks.getD i [])).count q)
            (tokenize (chunks.getD i [])).length
            ((((chunks.map tokenize).map List.length).sum : ℚ) / (chunks.length : ℚ)) := by
    intro q
    split
    · exact le_refl 0
    · rename_i hcq
      have hqmem : q ∈ tokenize (chunks.getD i []) :=
        List.count_pos_iff.mp (Nat.pos_of_ne_zero hcq)
      exact le_of_lt (mul_pos (hidf q hqmem)
        (htfn _ _ (Nat.one_le_iff_ne_zero.mpr hcq) ))
  apply list_sum_pos_of_mem
  · intro x hx
    rcases List.mem_map.mp hx with ⟨q, _, rfl⟩
    exact hterm q
  · exact List.mem_map_of_mem _ htq
  · have hct : (tokenize (chunks.getD i [])).count t ≠ 0 :=
      Nat.pos_iff_ne_zero.mp (List.count_pos_iff.mpr hti)
    rw [if_neg hct]
    exact mul_pos (hidf t hti) (htfn _ _ (Nat.one_le_iff_ne_zero.mpr hct))

theorem bm25Scores_mem_iff (lg : ℚ → ℚ) (query : List Char)
    (chunks : List (List Char)) (p : Nat × ℚ) :
    p ∈ bm25Scores lg query chunks ↔
      ∃ j, j < chunks.length ∧ p = (j, bm25ScoreAt lg query chunks j) := by
  unfold bm25Scores
  constructor
  · intro hp
    rcases List.mem_map.mp hp with ⟨j, hj, rfl⟩
    exact ⟨j, List.mem_range.mp hj, rfl⟩
  · rintro ⟨j, hj, rfl⟩
    exact List.mem_map_of_mem _ (List.mem_range.mpr hj)

theorem bm25Sorted_head (lg : ℚ → ℚ) (query : List Char)
    (chunks : List (List Char)) (i : Nat) (hi : i < chunks.length)
    (hmax : ∀ j, j < chunks.length → j ≠ i →
      bm25ScoreAt lg query chunks j < bm25ScoreAt lg query chunks i) :
    (bm25Sorted lg query chunks).head? =
      some (i, bm25ScoreAt lg query chunks i) := by
  have hperm : (bm25Sorted lg query chunks).Perm (bm25Scores lg query chunks) :=
    List.perm_insertionSort _ _
  have hpw : (bm25Sorted lg query chunks).Pairwise relOrder :=
    pairwise_insertionSort_relOrder _ (pairwise_fst_bm25Scores lg query chunks)
  have hlen : 0 < (bm25Sorted lg query chunks).length := by
    rw [length_bm25Sorted]
    exact lt_of_le_of_lt (Nat.zero_le i) hi
  rcases hs : bm25Sorted lg query chunks with _ | ⟨h, tail⟩
  · rw [hs] at hlen
    cases hlen
  · rw [hs] at hperm hpw
    have hh : h ∈ bm25Scores lg query chunks :=
      hperm.mem_iff.mp (List.mem_cons_self _ _)
    rcases (bm25Scores_mem_iff lg query chunks h).mp hh with ⟨j, hj, rfl⟩
    have hmem_i : (i, bm25ScoreAt lg query chunks i) ∈
        (j, bm25ScoreAt lg query chunks j) :: tail :=
      hperm.mem_iff.mpr ((bm25Scores_mem_iff lg query chunks _).mpr ⟨i, hi, rfl⟩)
    by_cases hij : j = i
    · subst hij
      rfl
    · exfalso
      rcases List.mem_cons.mp hmem_i with heq | htail
      · exact hij (congrArg Prod.fst heq).symm
      · have hrel := (List.pairwise_cons.mp hpw).1 _ htail
        have hlt := hmax j hj hij
        rcases hrel with hlt' | ⟨heq', _⟩
        · exact absurd hlt (not_lt_of_lt hlt')
        · have heq2 : bm25ScoreAt lg query chunks j = bm25ScoreAt lg query chunks i := heq'
          rw [heq2] at hlt
          exact lt_irrefl _ hlt

/-- C6, counterexample.  With `k = 6 ≥ 1` and query `"aaa bbb"`, the token
`bbb` occurs five times ("many times") in exactly the second chunk and in no
other chunk, yet the ranker returns the FIRST chunk at the head of its
result: by the symmetry of the two chunks both receive the same BM25 score
(for any abstraction of `Math.log`, here instantiated at `x - 1`), and the
stable sort keeps the earlier chunk first, so the claimed chunk is not
ranked first. -/
theorem c6_top_counterexample :
    ("bbb".data ∈ tokenize ("aaa bbb".data)) ∧
    (tokenize ("bbb bbb bbb bbb bbb".data)).count ("bbb".data) = 5 ∧
    ("bbb".data ∉ tokenize ("aaa aaa aaa aaa aaa".data)) ∧
    (scoreBM25 (fun x => x - 1) ("aaa bbb".data)
        ["aaa aaa aaa aaa aaa".data, "bbb bbb bbb bbb bbb".data] 6).head? =
      some ("aaa aaa aaa aaa aaa".data) := by
  refine ⟨by decide, by decide, by decide, by with_unfolding_all decide⟩

/-- C6, amended: if some query token occurs in chunk `i` while NO query
token occurs in any other chunk, the ranker places chunk `i` first, for
every `k ≥ 1`, every chunk list containing it and every abstraction `lg` of
`Math.log` that is positive on arguments `> 1` (as the natural logarithm
is).  The counterexample forces the strengthened hypothesis: chunks other
than `i` must match no query token at all, otherwise they can tie with or
beat chunk `i` on other tokens. -/
theorem c6_top_unique_match (lg : ℚ → ℚ) (hlg : ∀ x : ℚ, 1 < x → 0 < lg x)
    (query : List Char) (chunks : List (List Char)) (k i : Nat)
    (hi : i < chunks.length) (hk : 1 ≤ k) (t : List Char)
    (htq : t ∈ tokenize query)
    (hti : t ∈ tokenize (chunks.getD i []))
    (hother : ∀ j, j < chunks.length → j ≠ i →
      ∀ q ∈ tokenize query, q ∉ tokenize (chunks.getD j [])) :
    (scoreBM25 lg query chunks k).head? = some (chunks.getD i []) := by
  have hmax : ∀ j, j < chunks.length → j ≠ i →
      bm25ScoreAt lg query chunks j < bm25ScoreAt lg query chunks i := by
    intro j hj hne
    rw [bm25ScoreAt_eq_zero lg query chunks j hj (hother j hj hne)]
    exact bm25ScoreAt_pos lg hlg query chunks i hi t htq hti
  have hhead := bm25Sorted_head lg query chunks i hi hmax
  rcases List.head?_eq_some_iff.mp hhead with ⟨tail, htail⟩
  unfold scoreBM25
  rw [if_neg (by omega)]
  rw [htail]
  rcases k with _ | k
  · cases hk
  · rw [List.take_cons, List.map_cons, List.head?_cons]
    omega

/-- C6, witness: the amended statement applied at a concrete instance
(query `"aaa"`, a chunk containing it, a second chunk matching no query
token, `lg` instantiated to `x - 1`, which is positive on `x > 1`). -/
theorem c6_top_unique_match_witness :
    (scoreBM25 (fun x => x - 1) ("aaa".data)
      ["zzz www".data, "aaa aaa aaa".data] 6).head? =
      some (["zzz www".data, "aaa aaa aaa".data].getD 1 []) :=
  c6_top_unique_match (fun x => x - 1) (fun x hx => by simpa using sub_pos.mpr hx)
    ("aaa".data) ["zzz www".data, "aaa aaa aaa".data] 6 1
    (by decide) (by decide) ("aaa".data) (by decide) (by decide) (by decide)

/-! ### Sanitization helpers (`stripMarkdown`, `sanitizeHPI`,
`sanitizeMapping`, `sanitizeCriteria`) -/

/-- `text.replace(/###?\s*/g, "")`.  The regex consumes `###` or `##` plus
the following whitespace run; a run of `n` hashes is consumed as
`###`-groups plus possibly a final `##`, leaving one literal `#` exactly
when `n % 3 = 1`, in which case the following whitespace is not adjacent to
a match and is kept.  `count` is the pending hash-run length, `absorbing`
means we are consuming the `\s*` of a completed match. -/
def remHashA : List Char → Nat → Bool → List Char
  | [], count, _ => if count % 3 = 1 then ['#'] else []
  | c :: rest, count, absorbing =>
    if c = '#' then
      if absorbing then remHashA rest 1 false else remHashA rest (count + 1) false
    else if isWsJS c then
      if absorbing then remHashA rest 0 true
      else if count % 3 = 1 then '#' :: c :: remHashA rest 0 false
      else if 2 ≤ count then remHashA rest 0 true
      else c :: remHashA rest 0 false
    else
      if absorbing then c :: remHashA rest 0 false
      else if count % 3 = 1 then '#' :: c :: remHashA rest 0 false
      else c :: remHashA rest 0 false

/-- `text.replace(/\*\*/g, "")` (left-to-right, non-overlapping). -/
def remDoubleStar : List Char → List Char
  | '*' :: '*' :: rest => remDoubleStar rest
  | c :: rest => c :: remDoubleStar rest
  | [] => []

/-- `text.replace(/^[-•]\s*/gm, "")`: at each line start a `-` or `•` and
the whole following whitespace run (which may span newlines) are removed;
scanning resumes after the consumed run, which is a line start again
exactly when the last consumed character was a newline (`atStart` tracks
this; `absorbing` means we are inside the `\s*` of a match). -/
def remBulletsA : List Char → Bool → Bool → List Char
  | [], _, _ => []
  | c :: rest, atStart, absorbing =>
    if absorbing ∧ isWsJS c then remBulletsA rest (c = '\n') true
    else if atStart ∧ (c = '-' ∨ c = '•') then remBulletsA rest false true
    else c :: remBulletsA rest (c = '\n') false

/-- `stripMarkdown` from the source: strip heading markers, bold/emphasis
stars, backticks, and leading bullet markers, in that order. -/
def stripMarkdown (l : List Char) : List Char :=
  remBulletsA
    (((remDoubleStar (remHashA l 0 false)).filter (fun c => c ≠ '*')).filter
      (fun c => c ≠ '\x60'))
    true false

/-- `.replace(/\n+/g, " ")`: each maximal newline run becomes one space. -/
def nlRunToSpace : List Char → Bool → List Char
  | [], _ => []
  | c :: rest, inRun =>
    if c = '\n' then
      if inRun then nlRunToSpace rest true else ' ' :: nlRunToSpace rest true
    else c :: nlRunToSpace rest false

/-- `.replace(/\s{2,}/g, " ")`: each maximal whitespace run of length at
least two becomes one space; a lone whitespace character is kept. -/
def collapseWs2A : List Char → Bool → List Char
  | [], _ => []
  | [c], absorbing => if absorbing ∧ isWsJS c then [] else [c]
  | c1 :: c2 :: rest, absorbing =>
    if absorbing then
      if isWsJS c1 then collapseWs2A (c2 :: rest) true
      else c1 :: collapseWs2A (c2 :: rest) false
    else if isWsJS c1 ∧ isWsJS c2 then ' ' :: collapseWs2A rest true
    else c1 :: collapseWs2A (c2 :: rest) false

/-- `sanitizeHPI` from the source: strip markdown, newlines to spaces,
collapse whitespace runs, trim. -/
def sanitizeHPI (l : List Char) : List Char :=
  trimJS (collapseWs2A (nlRunToSpace (stripMarkdown l) false) false)

/-- `text.replace(/\n*-{3,}\n*/g, "\n---\n")`: left-to-right scan with the
pending newline-run length `nls`, the pending dash-run length `ds` and an
`absorbing` flag for the trailing `\n*` of a completed match. -/
def normSepA : List Char → Nat → Nat → Bool → List Char
  | [], nls, ds, absorbing =>
    if absorbing then []
    else if 3 ≤ ds then ['\n', '-', '-', '-', '\n']
    else List.replicate nls '\n' ++ List.replicate ds '-'
  | c :: rest, nls, ds, absorbing =>
    if absorbing then
      if c = '\n' then normSepA rest 0 0 true
      else if c = '-' then normSepA rest 0 1 false
      else c :: normSepA rest 0 0 false
    else if c = '\n' then
      if ds = 0 then normSepA rest (nls + 1) 0 false
      else if 3 ≤ ds then '\n' :: '-' :: '-' :: '-' :: '\n' :: normSepA rest 0 0 true
      else List.replicate nls '\n' ++ List.replicate ds '-' ++ normSepA rest 1 0 false
    else if c = '-' then normSepA rest nls (ds + 1) false
    else if 3 ≤ ds then '\n' :: '-' :: '-' :: '-' :: '\n' :: c :: normSepA rest 0 0 false
    else List.replicate nls '\n' ++ List.replicate ds '-' ++ c :: normSepA rest 0 0 false

/-- `text.includes("---")`. -/
def hasTripleDash : List Char → Bool
  | '-' :: '-' :: '-' :: _ => true
  | _ :: rest => hasTripleDash rest
  | [] => false

/-- `text.replace(/\n(?=Clause:)/g, "\n---\n")`: insert a separator before
each `Clause:` that follows a newline (the lookahead is not consumed, and
`Clause:` contains no newline, so emitting it directly is equivalent). -/
def insClause : List Char → List Char
  | '\n' :: 'C' :: 'l' :: 'a' :: 'u' :: 's' :: 'e' :: ':' :: rest =>
    '\n' :: '-' :: '-' :: '-' :: '\n' :: 'C' :: 'l' :: 'a' :: 'u' :: 's' :: 'e' :: ':' ::
      insClause rest
  | c :: rest => c :: insClause rest
  | [] => []

/-- `text.split("\n---\n")` (leftmost, non-overlapping). -/
def splitSepA : List Char → List Char → List (List Char)
  | '\n' :: '-' :: '-' :: '-' :: '\n' :: rest, acc => acc :: splitSepA rest []
  | c :: rest, acc => splitSepA rest (acc ++ [c])
  | [], acc => [acc]

/-- `sanitizeMapping` from the source: strip markdown, normalize separator
lines, fall back to inserting separators before `Clause:` when none exist,
then re-split, trim each item, drop blank items and re-join. -/
def sanitizeMapping (l : List Char) : List Char :=
  let text := normSepA (stripMarkdown l) 0 0 false
  let text2 := if hasTripleDash text then text else insClause text
  List.intercalate ['\n', '-', '-', '-', '\n']
    (((splitSepA text2 []).map trimJS).filter (fun s => s ≠ []))

/-! ### JSON values and `extractJSON` (claim C10) -/

/-- A JSON value as produced by `JSON.parse` (duplicate object keys already
resolved by the parser, later-key-wins, as `JSON.parse` does). -/
inductive JVal where
  | str (s : String)
  | num (q : ℚ)
  | bool (b : Bool)
  | null
  | arr (elems : List JVal)
  | obj (fields : List (String × JVal))

/-- JS truthiness of a JSON value (`undefined` is modelled by `Option.none`
at use sites). -/
def truthy : JVal → Bool
  | .str s => s ≠ ""
  | .num q => q ≠ 0
  | .bool b => b
  | .null => false
  | .arr _ => true
  | .obj _ => true

/-- Property access `v.key`: `none` models `undefined` (missing key or
non-object receiver). -/
def jget : JVal → String → Option JVal
  | .obj fields, key => fields.lookup key
  | _, _ => none

/-- JS truthiness of a possibly-`undefined` value. -/
def truthyO : Option JVal → Bool
  | none => false
  | some v => truthy v

/-- Find the text after the first occurrence of three consecutive
backticks. -/
def afterFence : List Char → Option (List Char)
  | '\x60' :: '\x60' :: '\x60' :: rest => some rest
  | _ :: rest => afterFence rest
  | [] => none

/-- The lazy capture group: the content before the next three consecutive
backticks, `none` when no closing fence follows. -/
def untilFence : List Char → Option (List Char)
  | '\x60' :: '\x60' :: '\x60' :: _ => some []
  | c :: rest => (untilFence rest).map (fun g => c :: g)
  | [] => none

/-- The capture group of the first match of
`/` followed by three backticks, `(?:json)?\s*([\s\S]*?)` and three closing
backticks: after the first fence, an optional literal `json` and leading
whitespace are consumed (greedily, as the regex does), then the group runs
lazily up to the next fence; `none` when the regex does not match.  (A
failed match at the first fence cannot succeed at a later starting
position: any closing fence for a later start also closes the first.) -/
def fenceGroup (l : List Char) : Option (List Char) :=
  match afterFence l with
  | none => none
  | some rest =>
    let rest2 := match rest with
      | 'j' :: 's' :: 'o' :: 'n' :: r => r
      | r => r
    untilFence (rest2.dropWhile isWsJS)

/-- The first match of `/\x7b[\s\S]*\x7d/` (source line
`text.match` with that pattern): from the first opening brace, greedily to
the last closing brace of the text, provided one closes it. -/
def braceSlice (l : List Char) : Option (List Char) :=
  if l.dropWhile (fun c => c ≠ '\x7b') = [] then none
  else if ((l.dropWhile (fun c => c ≠ '\x7b')).reverse.dropWhile
      (fun c => c ≠ '\x7d')).reverse = [] then none
  else some ((l.dropWhile (fun c => c ≠ '\x7b')).reverse.dropWhile
      (fun c => c ≠ '\x7d')).reverse

/-- `extractJSON(text)` from the source, with `JSON.parse` abstracted as the
oracle `parse` (`none` models a parse exception, caught by the source's
`try`/`catch`).  A fenced code block is tried first (trimmed, as the source
does); on absence or parse failure the brace-to-brace substring is tried;
otherwise the result is `null` (`none`). -/
def extractJSON (parse : List Char → Option JVal) (text : List Char) : Option JVal :=
  match fenceGroup text with
  | some g =>
    match parse (trimJS g) with
    | some v => some v
    | none =>
      match braceSlice text with
      | some m => parse m
      | none => none
  | none =>
    match braceSlice text with
    | some m => parse m
    | none => none

theorem dropWhile_head_false {p : Char → Bool} {l r : List Char} {c : Char}
    (h : l.dropWhile p = c :: r) : p c = false := by
  induction l with
  | nil => cases h
  | cons a l ih =>
    rw [List.dropWhile_cons] at h
    split at h
    · exact ih h
    · rename_i hp
      injection h with h1 _
      subst h1
      exact Bool.eq_false_iff.mpr hp

theorem dropWhile_append_all {p : Char → Bool} {l₁ : List Char}
    (h : ∀ x ∈ l₁, p x = true) (l₂ : List Char) :
    (l₁ ++ l₂).dropWhile p = l₂.dropWhile p := by
  induction l₁ with
  | nil => rfl
  | cons a l ih =>
    rw [List.cons_append, List.dropWhile_cons, if_pos (h a (List.mem_cons_self _ _))]
    exact ih (fun x hx => h x (List.mem_cons_of_mem _ hx))

theorem braceSlice_eq_some_iff (l m : List Char) :
    braceSlice l = some m ↔
      ∃ pre post, l = pre ++ m ++ post ∧ '\x7b' ∉ pre ∧ '\x7d' ∉ post ∧
        (∃ m₁, m = '\x7b' :: m₁) ∧ (∃ m₂, m = m₂ ++ ['\x7d']) := by
  constructor
  · intro h
    unfold braceSlice at h
    split at h
    · cases h
    · rename_i hs
      split at h
      · cases h
      · rename_i ht
        injection h with h1
        subst h1
        refine ⟨l.takeWhile (fun c => c ≠ '\x7b'),
          ((l.dropWhile (fun c => c ≠ '\x7b')).reverse.takeWhile
            (fun c => c ≠ '\x7d')).reverse, ?_, ?_, ?_, ?_, ?_⟩
        · conv_lhs => rw [← List.takeWhile_append_dropWhile
            (fun c => decide (c ≠ '\x7b')) l]
          rw [List.append_assoc]
          congr 1
          conv_lhs => rw [← List.reverse_reverse (l.dropWhile fun c => c ≠ '\x7b'),
            ← List.takeWhile_append_dropWhile (fun c => decide (c ≠ '\x7d'))
              (l.dropWhile (fun c => c ≠ '\x7b')).reverse]
          rw [List.reverse_append]
        · intro hmem
          have := List.mem_takeWhile_imp hmem
          simp at this
        · intro hmem
          have := List.mem_takeWhile_imp (List.mem_reverse.mp hmem)
          simp at this
        · rcases hcons : (l.dropWhile fun c => c ≠ '\x7b') with _ | ⟨c, s1⟩
          · exact absurd hcons hs
          · have hc : c = '\x7b' := by
              have := dropWhile_head_false hcons
              simpa using this
            subst hc
            rcases hT : ((l.dropWhile fun c => c ≠ '\x7b').reverse.dropWhile
                (fun c => c ≠ '\x7d')).reverse with _ | ⟨d, t1⟩
            · exact absurd hT ht
            · refine ⟨t1, ?_⟩
              have hpref : d :: t1 ++
                  ((l.dropWhile fun c => c ≠ '\x7b').reverse.takeWhile
                    (fun c => c ≠ '\x7d')).reverse = '\x7b' :: s1 := by
                rw [← hT, ← hcons]
                conv_rhs => rw [← List.reverse_reverse (l.dropWhile fun c => c ≠ '\x7b'),
                  ← List.takeWhile_append_dropWhile (fun c => decide (c ≠ '\x7d'))
                    (l.dropWhile (fun c => c ≠ '\x7b')).reverse]
                rw [List.reverse_append]
              rw [List.cons_append] at hpref
              injection hpref with h1 _
              rw [← hcons, hT, h1]
        · rcases hD : (l.dropWhile fun c => c ≠ '\x7b').reverse.dropWhile
              (fun c => c ≠ '\x7d') with _ | ⟨d, r⟩
          · exact absurd (by rw [hD]; rfl) ht
          · have hd : d = '\x7d' := by
              have := dropWhile_head_false hD
              simpa using this
            subst hd
            exact ⟨r.reverse, by simp⟩
  · rintro ⟨pre, post, rfl, hpre, hpost, ⟨m₁, hm1⟩, ⟨m₂, hm2⟩⟩
    have hpredec : ∀ x ∈ pre, (decide (x ≠ '\x7b')) = true :=
      fun x hx => decide_eq_true (fun heq => hpre (heq ▸ hx))
    have hpostdec : ∀ x ∈ post.reverse, (decide (x ≠ '\x7d')) = true :=
      fun x hx => decide_eq_true (fun heq => hpost (heq ▸ List.mem_reverse.mp hx))
    have hdrop : (pre ++ m ++ post).dropWhile (fun c => c ≠ '\x7b') = m ++ post := by
      rw [List.append_assoc, dropWhile_append_all hpredec, hm1, List.cons_append,
        List.dropWhile_cons, if_neg (by simp), ← List.cons_append, ← hm1]
    have hmrev : m.reverse = '\x7d' :: m₂.reverse := by
      rw [hm2]
      simp
    have hrev : (m ++ post).reverse.dropWhile (fun c => c ≠ '\x7d') = m.reverse := by
      rw [List.reverse_append, hmrev, dropWhile_append_all hpostdec,
        List.dropWhile_cons, if_neg (by simp)]
    unfold braceSlice
    rw [hdrop, if_neg (by rw [hm1]; simp), hrev, List.reverse_reverse,
      if_neg (by rw [hm1]; simp)]

/-- C10: `extractJSON` is total by construction (a Lean function; the
source wraps both `JSON.parse` calls in `try`/`catch` so no input throws)
and follows the claimed cascade: the parsed object of the first fenced code
block when that parses; otherwise the parsed object of the substring from
the first `\x7b` to the last `\x7d` when that parses; otherwise an absent
result.  The last conjunct verifies that the source's regex fallback is
exactly the spec's "substring from the first brace to the last brace"
(nothing before it contains an opening brace, nothing after it a closing
one). -/
theorem c10_extractJSON_cascade (parse : List Char → Option JVal)
    (text : List Char) :
    (∀ g v, fenceGroup text = some g → parse (trimJS g) = some v →
      extractJSON parse text = some v) ∧
    (∀ m, (∀ g, fenceGroup text = some g → parse (trimJS g) = none) →
      braceSlice text = some m → extractJSON parse text = parse m) ∧
    ((∀ g, fenceGroup text = some g → parse (trimJS g) = none) →
      braceSlice text = none → extractJSON parse text = none) ∧
    (∀ m, braceSlice text = some m ↔
      ∃ pre post, text = pre ++ m ++ post ∧ '\x7b' ∉ pre ∧ '\x7d' ∉ post ∧
        (∃ m₁, m = '\x7b' :: m₁) ∧ (∃ m₂, m = m₂ ++ ['\x7d'])) := by
  refine ⟨?_, ?_, ?_, fun m => braceSlice_eq_some_iff text m⟩
  · intro g v hg hv
    simp only [extractJSON, hg, hv]
  · intro m hfence hm
    rcases hfg : fenceGroup text with _ | g
    · simp only [extractJSON, hfg, hm]
    · simp only [extractJSON, hfg, hfence g hfg, hm]
  · intro hfence hm
    rcases hfg : fenceGroup text with _ | g
    · simp only [extractJSON, hfg, hm]
    · simp only [extractJSON, hfg, hfence g hfg, hm]

/-- C10, witness: the cascade applied at a concrete input without a fence,
whose brace substring parses. -/
theorem c10_extractJSON_witness :
    extractJSON (fun m => if m = ("\x7ba\x7d".data) then some JVal.null else none)
      ("x \x7ba\x7d y".data) = some JVal.null := by
  have h := (c10_extractJSON_cascade
    (fun m => if m = ("\x7ba\x7d".data) then some JVal.null else none)
    ("x \x7ba\x7d y".data)).2.1
  rw [h ("\x7ba\x7d".data)
    (fun g hg => by rw [show fenceGroup ("x \x7ba\x7d y".data) = none from rfl] at hg; cases hg)
    (by rfl)]
  rfl

/-! ### The request handler (claims C1, C2, C7, C8, C9) -/

/-- The outcome of one `callAI` fetch to the generation service: a resolved
HTTP response (whose `content` is the text `extractAIText` yields), a
rejected fetch, or an abort by the 60-second timer (`AbortError`). -/
inductive AIResult where
  | ok (status : Nat) (content : String)
  | netErr (msg : String)
  | timeout

/-- The request body; `none` models an absent field. -/
structure ReqBody where
  erText : Option String
  erPdfBase64 : Option String
  hpPdfBase64 : Option String
  mcgPdfBase64 : Option String

/-- The environment of one invocation: request body, configuration, and the
behaviour of the external collaborators (pdf-parse, `JSON.parse`, and one
outcome per generation-service call site). -/
structure Env where
  body : ReqBody
  apiKey : Option String
  pdfText : String → Option String
  jsonParse : List Char → Option JVal
  factsCall : AIResult
  hpiCall : AIResult
  criteriaCall : AIResult
  retryCall : AIResult
  mappingCall : AIResult
  auditCall : AIResult

/-- JS truthiness of an optional string field. -/
def otruthy : Option String → Bool
  | none => false
  | some s => s ≠ ""

/-- The generation-service call sites, recorded in invocation order. -/
inductive Stage where
  | facts | hpi | criteria | criteriaRetry | mapping | audit
  deriving DecidableEq

/-- The ways the handler's `try` block stops early: an `errorResponse`
returned directly, a thrown `Error` (caught as a 500), a `TypeError` from
calling `.replace` on a non-string (caught as a 500), or an `AbortError`
(caught as a 504). -/
inductive Failure where
  | resp (status : Nat) (msg : String)
  | thrown (msg : String)
  | typeErr
  | aborted

/-- The handler's response payload. -/
inductive HResp where
  | success (revised_hpi : String) (missing_criteria : List JVal)
      (mapping_explanation : String)
  | error (status : Nat) (msg : String)

/-- `handleAIStatus` from the source. -/
def handleAIStatus (status : Nat) : Option Failure :=
  if status = 429 then some (.resp 429 "Rate limit exceeded, please try again later.")
  else if status = 402 then some (.resp 402 "Payment required. Please add credits.")
  else none

/-- `resp.ok`: HTTP status in `[200, 300)`. -/
def okStatus (status : Nat) : Bool := 200 ≤ status ∧ status < 300

def trimS (s : String) : String := String.mk (trimJS s.data)

def stripMarkdownS (s : String) : String := String.mk (stripMarkdown s.data)

def sanitizeHPIS (s : String) : String := String.mk (sanitizeHPI s.data)

def sanitizeMappingS (s : String) : String := String.mk (sanitizeMapping s.data)

def extractionErrMsg (label : String) : String :=
  "Unable to extract text from " ++ label ++
    " PDF. The file may be corrupted, password-protected, or image-only."

/-- `parsePdfBase64` from the source: the library's `parsed.text?.trim()`;
a library exception or empty text yields the labelled extraction error
(the `atob` decoding is part of the opaque collaborator `pdfText`). -/
def parsePdfBase64 (env : Env) (b64 label : String) : Except Failure String :=
  match env.pdfText b64 with
  | none => .error (.thrown (extractionErrMsg label))
  | some t =>
    if trimS t = "" then .error (.thrown (extractionErrMsg label))
    else .ok (trimS t)

/-- `c.field || ""` followed by use as a string: a string yields itself, a
falsy value yields `""`, and a truthy non-string yields `none`, on which the
source's `stripMarkdown` would throw a TypeError (`.replace` is not a
function). -/
def strOrEmpty : Option JVal → Option String
  | none => some ""
  | some (.str s) => some s
  | some v => if truthy v then none else some ""

/-- Object-spread field update `{...c, key: v}`: an existing key keeps its
position with the new value, a new key is appended. -/
def setField : List (String × JVal) → String → JVal → List (String × JVal)
  | [], key, v => [(key, v)]
  | (k, w) :: fields, key, v =>
    if k = key then (key, v) :: fields else (k, w) :: setField fields key v

def jfields : JVal → List (String × JVal)
  | .obj fields => fields
  | _ => []

/-- One entry of `sanitizeCriteria`: spread plus markdown-stripped, trimmed
string fields. -/
def sanitizeEntry (c : JVal) : Except Failure JVal :=
  match strOrEmpty (jget c "mcg_clause"), strOrEmpty (jget c "evidence_in_notes"),
      strOrEmpty (jget c "required_documentation") with
  | some a, some b, some d =>
    .ok (.obj (setField (setField (setField (jfields c)
      "mcg_clause" (.str (trimS (stripMarkdownS a))))
      "evidence_in_notes" (.str (trimS (stripMarkdownS b))))
      "required_documentation" (.str (trimS (stripMarkdownS d)))))
  | _, _, _ => .error .typeErr

/-- `sanitizeCriteria` from the source (`criteria.map(...)`; the first
TypeError aborts the request). -/
def sanitizeCriteria : List JVal → Except Failure (List JVal)
  | [] => .ok []
  | c :: rest =>
    match sanitizeEntry c with
    | .error f => .error f
    | .ok c' =>
      match sanitizeCriteria rest with
      | .error f => .error f
      | .ok rest' => .ok (c' :: rest')

/-- Membership in the source's `validStatuses` set (`Set.has` on a
non-string is false). -/
def validStatus : Option JVal → Bool
  | some (.str s) =>
    s = "Not documented" ∨ s = "Insufficient detail" ∨ s = "Unable to determine"
  | _ => false

/-- The gap-entry filter `c.mcg_clause && validStatuses.has(c.status)`. -/
def entryValid (c : JVal) : Bool :=
  truthyO (jget c "mcg_clause") && validStatus (jget c "status")

/-- The source's recurring pattern after a resolved call: `resp.ok`
content, otherwise `handleAIStatus`, otherwise a thrown gateway error. -/
def resolveAI (r : AIResult) (gatewayMsg : Nat → String) : Except Failure String :=
  match r with
  | .timeout => .error .aborted
  | .netErr m => .error (.thrown m)
  | .ok status content =>
    if okStatus status then .ok content
    else match handleAIStatus status with
      | some f => .error f
      | none => .error (.thrown (gatewayMsg status))

/-- Lines 574-595 of the source: the final validation
(`!revisedHPI || !mappingExplanation` throws) followed by sanitization of
all three outputs, in source order (narrative, mapping, gap entries). -/
def finalReturn (rHPI : JVal) (mc : List JVal) (mapping : String) :
    Except Failure (String × List JVal × String) :=
  if truthy rHPI = false ∨ mapping = "" then
    .error (.thrown "Incomplete AI output. Please try again.")
  else
    match rHPI with
    | .str s =>
      match sanitizeCriteria mc with
      | .error f => .error f
      | .ok mc' => .ok (sanitizeHPIS s, mc', sanitizeMappingS mapping)
    | _ => .error .typeErr

/-- Stage 5 of the source (lines 538-572) plus the fall-through return:
on an ok audit response whose content parses, `revised_hpi` and
`missing_criteria` are replaced field-wise when present (the list being
re-filtered); a truthy `mapping_explanation` triggers the immediate
sanitized return, otherwise control falls through to the pre-audit return
with whatever replacements already happened.  A non-ok response falls back
entirely; a rejected fetch or a timeout propagates out of the `try` block
(the source does not catch them here). -/
def auditStage (env : Env) (revisedHPI : String) (filtered : List JVal)
    (mapping : String) : Except Failure (String × List JVal × String) :=
  match env.auditCall with
  | .timeout => .error .aborted
  | .netErr m => .error (.thrown m)
  | .ok status content =>
    if okStatus status then
      match extractJSON env.jsonParse content.data with
      | some audited =>
        if truthyO (jget audited "mapping_explanation") then
          match (if truthyO (jget audited "revised_hpi")
              then (jget audited "revised_hpi").getD .null
              else .str revisedHPI) with
          | .str s =>
            match strOrEmpty (jget audited "mapping_explanation") with
            | some mapStr =>
              match sanitizeCriteria (match jget audited "missing_criteria" with
                | some (.arr xs) => xs.filter entryValid
                | _ => filtered) with
              | .ok mc' => .ok (sanitizeHPIS s, mc', sanitizeMappingS mapStr)
              | .error f => .error f
            | none => .error .typeErr
          | _ => .error .typeErr
        else
          finalReturn
            (if truthyO (jget audited "revised_hpi")
              then (jget audited "revised_hpi").getD .null
              else .str revisedHPI)
            (match jget audited "missing_criteria" with
              | some (.arr xs) => xs.filter entryValid
              | _ => filtered)
            mapping
      | none => finalReturn (.str revisedHPI) filtered mapping
    else finalReturn (.str revisedHPI) filtered mapping

/-- Stage 4 (mapping explanation) followed by stage 5 (self-audit), with
the calls they issue. -/
def mappingAndAudit (env : Env) (revisedHPI : String) (filtered : List JVal) :
    Except Failure (String × List JVal × String) × List Stage :=
  match resolveAI env.mappingCall (fun st => "AI Gateway returned " ++ toString st) with
  | .error f => (.error f, [Stage.mapping])
  | .ok mapping =>
    (auditStage env revisedHPI filtered mapping, [Stage.mapping, Stage.audit])

/-- The `validStatuses` filter (line 514) followed by stages 4 and 5. -/
def criteriaTail (env : Env) (revisedHPI : String) (mc : List JVal) :
    Except Failure (String × List JVal × String) × List Stage :=
  mappingAndAudit env revisedHPI (mc.filter entryValid)

/-- Extraction of the `missing_criteria` array from a criteria response
(lines 492-496 and 505-509). -/
def parseCriteria (env : Env) (content : String) : Option (List JVal) :=
  match extractJSON env.jsonParse content.data with
  | some obj =>
    match jget obj "missing_criteria" with
    | some (.arr xs) => some xs
    | _ => none
  | none => none

/-- The ER notes text the pipeline proceeds with: the `erText.trim()`
branch, or the labelled PDF extraction. -/
def extractedER (env : Env) : Except Failure String :=
  if otruthy env.body.erText then .ok (trimS ((env.body.erText).getD ""))
  else parsePdfBase64 env ((env.body.erPdfBase64).getD "") "ER Notes"

def prependLog (pre : List Stage)
    (p : Except Failure (String × List JVal × String) × List Stage) :
    Except Failure (String × List JVal × String) × List Stage :=
  (p.1, pre ++ p.2)

/-- The gap-analysis parse with its one retry (lines 492-511), followed by
the validated tail: a parse failure triggers the retry call, whose non-ok
response (including a quota signal) is silently ignored and degrades to the
empty list. -/
def criteriaStage (env : Env) (c1 c2 : String) :
    Except Failure (String × List JVal × String) × List Stage :=
  match parseCriteria env c2 with
  | some xs => criteriaTail env c1 xs
  | none =>
    match env.retryCall with
    | .timeout => (.error .aborted, [Stage.criteriaRetry])
    | .netErr m => (.error (.thrown m), [Stage.criteriaRetry])
    | .ok st c =>
      prependLog [Stage.criteriaRetry]
        (criteriaTail env c1 (if okStatus st then (parseCriteria env c).getD [] else []))

/-- Stages 1+3 (parallel narrative and gap-analysis calls, lines 464-482)
and everything after them.  `Promise.all` rejects with the first rejection
(the embedding checks the narrative call first; the claims do not depend on
which of two simultaneous rejections wins); the status loop checks the
narrative response first. -/
def afterFacts (env : Env) :
    Except Failure (String × List JVal × String) × List Stage :=
  match env.hpiCall, env.criteriaCall with
  | .timeout, _ => (.error .aborted, [Stage.hpi, Stage.criteria])
  | .netErr m, _ => (.error (.thrown m), [Stage.hpi, Stage.criteria])
  | .ok _ _, .timeout => (.error .aborted, [Stage.hpi, Stage.criteria])
  | .ok _ _, .netErr m => (.error (.thrown m), [Stage.hpi, Stage.criteria])
  | .ok st1 c1, .ok st2 c2 =>
    if okStatus st1 = false then
      match handleAIStatus st1 with
      | some f => (.error f, [Stage.hpi, Stage.criteria])
      | none =>
        (.error (.thrown ("AI Gateway returned " ++ toString st1)),
          [Stage.hpi, Stage.criteria])
    else if okStatus st2 = false then
      match handleAIStatus st2 with
      | some f => (.error f, [Stage.hpi, Stage.criteria])
      | none =>
        (.error (.thrown ("AI Gateway returned " ++ toString st2)),
          [Stage.hpi, Stage.criteria])
    else prependLog [Stage.hpi, Stage.criteria] (criteriaStage env c1 c2)

/-- The `Deno.serve` handler body, as a function of the request
environment; the second component records the generation-service calls
actually issued, in order.  Stage 2 (chunking and BM25 retrieval) and the
`slice` truncations only build prompt text for calls whose outcomes the
environment already fixes, so they affect no observable output and are not
re-computed here; `chunkText`/`scoreBM25` are verified separately. -/
def runPipeline (env : Env) :
    Except Failure (String × List JVal × String) × List Stage :=
  if otruthy env.body.erText = false ∧ otruthy env.body.erPdfBase64 = false then
    (.error (.resp 400 "ER Notes (text or PDF) are required."), [])
  else if otruthy env.body.hpPdfBase64 = false then
    (.error (.resp 400 "Inpatient H&P PDF is required."), [])
  else if otruthy env.body.mcgPdfBase64 = false then
    (.error (.resp 400 "MCG Guideline PDF is required."), [])
  else match env.apiKey with
  | none =>
    (.error (.resp 500 "AI API key is not configured. Please contact support."), [])
  | some _ =>
    match extractedER env with
    | .error f => (.error f, [])
    | .ok _erNotesText =>
    match parsePdfBase64 env ((env.body.hpPdfBase64).getD "") "H&P" with
    | .error f => (.error f, [])
    | .ok _hpText =>
    match parsePdfBase64 env ((env.body.mcgPdfBase64).getD "") "MCG Guideline" with
    | .error f => (.error f, [])
    | .ok _mcgText =>
    match resolveAI env.factsCall
        (fun st => "AI Gateway returned " ++ toString st ++ " during facts extraction") with
    | .error f => (.error f, [Stage.facts])
    | .ok factsRaw =>
    match extractJSON env.jsonParse factsRaw.data with
    | none =>
      (.error (.thrown "Failed to extract structured facts from notes. Please try again."),
        [Stage.facts])
    | some factsObj =>
    if truthyO (jget factsObj "patient") = false then
      (.error (.thrown "Failed to extract structured facts from notes. Please try again."),
        [Stage.facts])
    else prependLog [Stage.facts] (afterFacts env)

/-- The HTTP response the outer `try`/`catch` produces from the pipeline
outcome.  (The exact message text of a JS TypeError is abstracted as
`"TypeError"`.) -/
def handler (env : Env) : HResp × List Stage :=
  match runPipeline env with
  | (.ok (h, mc, m), log) => (.success h mc m, log)
  | (.error (.resp s msg), log) => (.error s msg, log)
  | (.error (.thrown msg), log) => (.error 500 msg, log)
  | (.error .typeErr, log) => (.error 500 "TypeError", log)
  | (.error .aborted, log) =>
    (.error 504 "AI processing timed out. Please try again with shorter documents.", log)

theorem parsePdfBase64_fail (env : Env) (b64 label : String)
    (h : env.pdfText b64 = none ∨ ∃ t, env.pdfText b64 = some t ∧ trimS t = "") :
    parsePdfBase64 env b64 label = .error (.thrown (extractionErrMsg label)) := by
  rcases h with h | ⟨t, h1, h2⟩
  · simp only [parsePdfBase64, h]
  · simp only [parsePdfBase64, h1]
    rw [if_pos h2]

theorem runPipeline_pre (env : Env)
    (hval : otruthy env.body.erText = true ∨ otruthy env.body.erPdfBase64 = true)
    (hhp : otruthy env.body.hpPdfBase64 = true)
    (hmcg : otruthy env.body.mcgPdfBase64 = true)
    (k : String) (hkey : env.apiKey = some k)
    (er : String) (her : extractedER env = .ok er)
    (hp : String)
    (hhp2 : parsePdfBase64 env ((env.body.hpPdfBase64).getD "") "H&P" = .ok hp)
    (mcg : String)
    (hmcg2 : parsePdfBase64 env ((env.body.mcgPdfBase64).getD "")
      "MCG Guideline" = .ok mcg) :
    runPipeline env =
      (match resolveAI env.factsCall
          (fun st => "AI Gateway returned " ++ toString st ++
            " during facts extraction") with
      | .error f => (.error f, [Stage.facts])
      | .ok factsRaw =>
        match extractJSON env.jsonParse factsRaw.data with
        | none =>
          (.error (.thrown
            "Failed to extract structured facts from notes. Please try again."),
            [Stage.facts])
        | some factsObj =>
          if truthyO (jget factsObj "patient") = false then
            (.error (.thrown
              "Failed to extract structured facts from notes. Please try again."),
              [Stage.facts])
          else prependLog [Stage.facts] (afterFacts env)) := by
  rcases hval with hv | hv <;>
  · unfold runPipeline
    rw [if_neg (by simp [hv]), if_neg (by simp [hhp]), if_neg (by simp [hmcg]), hkey,
      her, hhp2, hmcg2]

/-- C7: when the facts response arrives with an ok status but its content
does not parse to an object with a truthy `patient` field, the pipeline
aborts immediately with the facts-specific error; there is no retry and
neither the narrative nor the gap-analysis call is ever issued (the call
log is exactly the facts call). -/
theorem c7_facts_parse_fatal (env : Env)
    (hval : otruthy env.body.erText = true ∨ otruthy env.body.erPdfBase64 = true)
    (hhp : otruthy env.body.hpPdfBase64 = true)
    (hmcg : otruthy env.body.mcgPdfBase64 = true)
    (k : String) (hkey : env.apiKey = some k)
    (er : String) (her : extractedER env = .ok er)
    (hp : String)
    (hhp2 : parsePdfBase64 env ((env.body.hpPdfBase64).getD "") "H&P" = .ok hp)
    (mcg : String)
    (hmcg2 : parsePdfBase64 env ((env.body.mcgPdfBase64).getD "")
      "MCG Guideline" = .ok mcg)
    (st : Nat) (c : String) (hfc : env.factsCall = .ok st c)
    (hok : okStatus st = true)
    (hparse : ∀ v, extractJSON env.jsonParse c.data = some v →
      truthyO (jget v "patient") = false) :
    handler env =
      (.error 500 "Failed to extract structured facts from notes. Please try again.",
        [Stage.facts]) := by
  have hres : resolveAI env.factsCall
      (fun st => "AI Gateway returned " ++ toString st ++
        " during facts extraction") = .ok c := by
    simp only [resolveAI, hfc]
    rw [if_pos hok]
  unfold handler
  rw [runPipeline_pre env hval hhp hmcg k hkey er her hp hhp2 mcg hmcg2]
  rcases hej : extractJSON env.jsonParse c.data with _ | v
  · simp only [hres, hej]
  · simp only [hres, hej, hparse v hej, if_pos]

/-- The response the outer `catch` produces from each failure kind. -/
def failureResp : Failure → HResp
  | .resp s msg => .error s msg
  | .thrown msg => .error 500 msg
  | .typeErr => .error 500 "TypeError"
  | .aborted =>
    .error 504 "AI processing timed out. Please try again with shorter documents."

/-- The response produced from a pipeline outcome (`failureResp` is what
the outer `catch` builds from each failure kind). -/
def respOf : Except Failure (String × List JVal × String) → HResp
  | .ok (h1, mc, m) => .success h1 mc m
  | .error f => failureResp f

theorem handler_of_runPipeline (env : Env)
    {r : Except Failure (String × List JVal × String)} {log : List Stage}
    (h : runPipeline env = (r, log)) :
    handler env = (respOf r, log) := by
  rcases r with f | ⟨h1, mc, m⟩
  · rcases f <;> simp only [handler, h, respOf, failureResp]
  · simp only [handler, h, respOf]

/-- A concrete JSON.parse oracle for the witness environments: a facts
object with a `patient` field and a criteria object with one valid entry. -/
def jpBase : List Char → Option JVal := fun l =>
  if l = "\x7bF\x7d".data then some (.obj [("patient", .obj [])])
  else if l = "\x7bC\x7d".data then some (.obj [("missing_criteria", .arr
    [.obj [("mcg_clause", .str "Clause A"), ("status", .str "Not documented"),
           ("evidence_in_notes", .str "None"),
           ("required_documentation", .str "Doc")]])])
  else none

/-- A concrete environment exercising the whole pipeline (every stage
resolves; the audit response is a non-ok 500, so the pre-audit outputs are
returned).  The witnesses and counterexamples below perturb single
fields. -/
def envBase : Env where
  body := { erText := some "er notes", erPdfBase64 := none,
            hpPdfBase64 := some "HPB64", mcgPdfBase64 := some "MCGB64" }
  apiKey := some "key"
  pdfText := fun b => some ("text " ++ b)
  jsonParse := jpBase
  factsCall := .ok 200 "\x7bF\x7d"
  hpiCall := .ok 200 "HPI narrative"
  criteriaCall := .ok 200 "\x7bC\x7d"
  retryCall := .ok 200 ""
  mappingCall := .ok 200 "MAP explanation"
  auditCall := .ok 500 "unavailable"

/-- C7, witness: the theorem applied to a concrete environment whose facts
response is plain prose (no JSON). -/
theorem c7_facts_parse_fatal_witness :
    handler { envBase with factsCall := .ok 200 "prose" } =
      (.error 500 "Failed to extract structured facts from notes. Please try again.",
        [Stage.facts]) :=
  c7_facts_parse_fatal _ (Or.inl rfl) rfl rfl "key" rfl "er notes" rfl
    "text HPB64" rfl "text MCGB64" rfl 200 "prose" rfl rfl
    (fun _ hv => Option.noConfusion
      ((show extractJSON
          ({ envBase with factsCall := AIResult.ok 200 "prose" } : Env).jsonParse
          ("prose".data) = none from rfl).symm.trans hv))

/-- C9, counterexample.  ER notes supplied as direct text are only trimmed:
whitespace-only ER text enters the pipeline as the empty string without any
extraction error, and a generation call is issued (here the facts call,
whose response then fails to parse).  The claim requires a field-specific
extraction failure with no generation call for every empty extracted
text. -/
theorem c9_empty_er_counterexample :
    extractedER { envBase with
        body := { envBase.body with erText := some " " },
        factsCall := .ok 200 "prose" } = .ok "" ∧
    handler { envBase with
        body := { envBase.body with erText := some " " },
        factsCall := .ok 200 "prose" } =
      (.error 500 "Failed to extract structured facts from notes. Please try again.",
        [Stage.facts]) := by
  exact ⟨rfl, rfl⟩

/-- C9, amended: every document supplied as a PDF yields a non-empty
extracted text or the request fails with that document's field-specific
extraction error before any generation call (the call log is empty); ER
notes supplied as direct text are exempt — they are only trimmed and may
enter the pipeline empty (see the counterexample). -/
theorem c9_extraction_nonempty (env : Env)
    (hval : otruthy env.body.erText = true ∨ otruthy env.body.erPdfBase64 = true)
    (hhp : otruthy env.body.hpPdfBase64 = true)
    (hmcg : otruthy env.body.mcgPdfBase64 = true)
    (k : String) (hkey : env.apiKey = some k) :
    (otruthy env.body.erText = false →
      (env.pdfText ((env.body.erPdfBase64).getD "") = none ∨
        ∃ t, env.pdfText ((env.body.erPdfBase64).getD "") = some t ∧ trimS t = "") →
      handler env = (.error 500 (extractionErrMsg "ER Notes"), [])) ∧
    (∀ er, extractedER env = .ok er →
      (env.pdfText ((env.body.hpPdfBase64).getD "") = none ∨
        ∃ t, env.pdfText ((env.body.hpPdfBase64).getD "") = some t ∧ trimS t = "") →
      handler env = (.error 500 (extractionErrMsg "H&P"), [])) ∧
    (∀ er hp, extractedER env = .ok er →
      parsePdfBase64 env ((env.body.hpPdfBase64).getD "") "H&P" = .ok hp →
      (env.pdfText ((env.body.mcgPdfBase64).getD "") = none ∨
        ∃ t, env.pdfText ((env.body.mcgPdfBase64).getD "") = some t ∧ trimS t = "") →
      handler env = (.error 500 (extractionErrMsg "MCG Guideline"), [])) := by
  have hifs : ∀ rest : Except Failure (String × List JVal × String) × List Stage,
      (if otruthy env.body.erText = false ∧ otruthy env.body.erPdfBase64 = false then
        (.error (.resp 400 "ER Notes (text or PDF) are required."), [])
      else if otruthy env.body.hpPdfBase64 = false then
        (.error (.resp 400 "Inpatient H&P PDF is required."), [])
      else if otruthy env.body.mcgPdfBase64 = false then
        (.error (.resp 400 "MCG Guideline PDF is required."), [])
      else rest) = rest := by
    intro rest
    rw [if_neg (by rcases hval with h | h <;> simp [h]), if_neg (by simp [hhp]),
      if_neg (by simp [hmcg])]
  refine ⟨?_, ?_, ?_⟩
  · intro hert hfail
    rcases hval with hv | hv
    · rw [hv] at hert
      cases hert
    · have her : extractedER env = .error (.thrown (extractionErrMsg "ER Notes")) := by
        unfold extractedER
        rw [if_neg (by simp [hert])]
        exact parsePdfBase64_fail env _ _ hfail
      have hrp : runPipeline env = (.error (.thrown (extractionErrMsg "ER Notes")), []) := by
        unfold runPipeline
        rw [hifs _, hkey]
        simp only [her]
      rw [handler_of_runPipeline env hrp]
      rfl
  · intro er her hfail
    have hhp3 := parsePdfBase64_fail env ((env.body.hpPdfBase64).getD "") "H&P" hfail
    have hrp : runPipeline env = (.error (.thrown (extractionErrMsg "H&P")), []) := by
      unfold runPipeline
      rw [hifs _, hkey]
      simp only [her, hhp3]
    rw [handler_of_runPipeline env hrp]
    rfl
  · intro er hp her hhp3 hfail
    have hmcg3 := parsePdfBase64_fail env ((env.body.mcgPdfBase64).getD "")
      "MCG Guideline" hfail
    have hrp : runPipeline env = (.error (.thrown (extractionErrMsg "MCG Guideline")), []) := by
      unfold runPipeline
      rw [hifs _, hkey]
      simp only [her, hhp3, hmcg3]
    rw [handler_of_runPipeline env hrp]
    rfl

/-- C9, witness: the amended statement applied to a concrete environment
whose H&P PDF cannot be extracted. -/
theorem c9_extraction_nonempty_witness :
    handler { envBase with
        pdfText := fun b => if b = "HPB64" then none else some ("text " ++ b) } =
      (.error 500 (extractionErrMsg "H&P"), []) :=
  (c9_extraction_nonempty
    { envBase with pdfText := fun b => if b = "HPB64" then none else some ("text " ++ b) }
    (Or.inl rfl) rfl rfl "key" rfl).2.1 "er notes" rfl (Or.inl rfl)

theorem handleAIStatus_not_ok {st : Nat} {f : Failure}
    (h : handleAIStatus st = some f) : okStatus st = false := by
  unfold handleAIStatus at h
  split at h
  · rename_i h429
    subst h429
    rfl
  · split at h
    · rename_i h402
      subst h402
      rfl
    · cases h

/-- The facts stage succeeds: the call resolves with an ok status and its
content parses to an object with a truthy `patient` field. -/
def FactsOk (env : Env) : Prop :=
  ∃ c v, resolveAI env.factsCall
      (fun st => "AI Gateway returned " ++ toString st ++
        " during facts extraction") = .ok c ∧
    extractJSON env.jsonParse c.data = some v ∧ truthyO (jget v "patient") = true

theorem runPipeline_afterFacts (env : Env)
    (hval : otruthy env.body.erText = true ∨ otruthy env.body.erPdfBase64 = true)
    (hhp : otruthy env.body.hpPdfBase64 = true)
    (hmcg : otruthy env.body.mcgPdfBase64 = true)
    (k : String) (hkey : env.apiKey = some k)
    (er : String) (her : extractedER env = .ok er)
    (hp : String)
    (hhp2 : parsePdfBase64 env ((env.body.hpPdfBase64).getD "") "H&P" = .ok hp)
    (mcg : String)
    (hmcg2 : parsePdfBase64 env ((env.body.mcgPdfBase64).getD "")
      "MCG Guideline" = .ok mcg)
    (hfacts : FactsOk env) :
    runPipeline env = prependLog [Stage.facts] (afterFacts env) := by
  obtain ⟨c, v, hres, hej, hpat⟩ := hfacts
  rw [runPipeline_pre env hval hhp hmcg k hkey er her hp hhp2 mcg hmcg2]
  simp only [hres, hej]
  rw [if_neg (by rw [hpat]; simp)]

theorem afterFacts_join (env : Env) (st1 : Nat) (c1 : String) (st2 : Nat) (c2 : String)
    (h1 : env.hpiCall = .ok st1 c1) (h2 : env.criteriaCall = .ok st2 c2)
    (hok1 : okStatus st1 = true) (hok2 : okStatus st2 = true) :
    afterFacts env = prependLog [Stage.hpi, Stage.criteria] (criteriaStage env c1 c2) := by
  simp only [afterFacts, h1, h2]
  rw [if_neg (by rw [hok1]; simp), if_neg (by rw [hok2]; simp)]

theorem criteriaTail_mapping_ok (env : Env) (c1 : String) (mc : List JVal) (m : String)
    (hm : resolveAI env.mappingCall
      (fun st => "AI Gateway returned " ++ toString st) = .ok m) :
    criteriaTail env c1 mc =
      (auditStage env c1 (mc.filter entryValid) m, [Stage.mapping, Stage.audit]) := by
  simp only [criteriaTail, mappingAndAudit, hm]

/-- C8, counterexample.  A quota signal (HTTP 429) on the gap-analysis
RETRY call is not surfaced: the retry's non-ok response is silently ignored
(`if (retryResp.ok)`), the pipeline degrades to an empty gap list and the
request succeeds with a 200-style payload instead of failing with 429. -/
theorem c8_quota_counterexample :
    handler { envBase with criteriaCall := .ok 200 "prose", retryCall := .ok 429 "limit" } =
      (.success "HPI narrative" [] "MAP explanation",
        [Stage.facts, Stage.hpi, Stage.criteria, Stage.criteriaRetry,
          Stage.mapping, Stage.audit]) := by
  rfl

/-- C8, amended: a rate-limit or quota signal (a status `handleAIStatus`
maps, 429 or 402) is surfaced to the caller as that distinct status and
never retried when it occurs on the facts call, on either of the two
parallel calls (narrative first in the check order; a quota on either fails
the whole request immediately and the sibling's content is discarded — the
conclusion does not depend on it), or on the mapping call.  It is NOT
surfaced on the gap-analysis retry call (silently degraded to an empty gap
list, conjunct 5) or on the self-audit call (pre-audit fallback,
conjunct 6). -/
theorem c8_quota_surfacing (env : Env)
    (hval : otruthy env.body.erText = true ∨ otruthy env.body.erPdfBase64 = true)
    (hhp : otruthy env.body.hpPdfBase64 = true)
    (hmcg : otruthy env.body.mcgPdfBase64 = true)
    (k : String) (hkey : env.apiKey = some k)
    (er : String) (her : extractedER env = .ok er)
    (hp : String)
    (hhp2 : parsePdfBase64 env ((env.body.hpPdfBase64).getD "") "H&P" = .ok hp)
    (mcg : String)
    (hmcg2 : parsePdfBase64 env ((env.body.mcgPdfBase64).getD "")
      "MCG Guideline" = .ok mcg) :
    (∀ st c s msg, env.factsCall = .ok st c →
      handleAIStatus st = some (.resp s msg) →
      handler env = (.error s msg, [Stage.facts])) ∧
    (∀ st1 c1 st2 c2 s msg, FactsOk env →
      env.hpiCall = .ok st1 c1 → env.criteriaCall = .ok st2 c2 →
      handleAIStatus st1 = some (.resp s msg) →
      handler env = (.error s msg, [Stage.facts, Stage.hpi, Stage.criteria])) ∧
    (∀ st1 c1 st2 c2 s msg, FactsOk env →
      env.hpiCall = .ok st1 c1 → env.criteriaCall = .ok st2 c2 →
      okStatus st1 = true → handleAIStatus st2 = some (.resp s msg) →
      handler env = (.error s msg, [Stage.facts, Stage.hpi, Stage.criteria])) ∧
    (∀ st1 c1 st2 c2 xs st c s msg, FactsOk env →
      env.hpiCall = .ok st1 c1 → env.criteriaCall = .ok st2 c2 →
      okStatus st1 = true → okStatus st2 = true →
      parseCriteria env c2 = some xs →
      env.mappingCall = .ok st c → handleAIStatus st = some (.resp s msg) →
      handler env =
        (.error s msg, [Stage.facts, Stage.hpi, Stage.criteria, Stage.mapping])) ∧
    (∀ st1 c1 st2 c2 st c f, FactsOk env →
      env.hpiCall = .ok st1 c1 → env.criteriaCall = .ok st2 c2 →
      okStatus st1 = true → okStatus st2 = true →
      parseCriteria env c2 = none →
      env.retryCall = .ok st c → handleAIStatus st = some f →
      runPipeline env =
        prependLog [Stage.facts, Stage.hpi, Stage.criteria, Stage.criteriaRetry]
          (criteriaTail env c1 [])) ∧
    (∀ st1 c1 st2 c2 xs m st c f, FactsOk env →
      env.hpiCall = .ok st1 c1 → env.criteriaCall = .ok st2 c2 →
      okStatus st1 = true → okStatus st2 = true →
      parseCriteria env c2 = some xs →
      resolveAI env.mappingCall
        (fun st => "AI Gateway returned " ++ toString st) = .ok m →
      env.auditCall = .ok st c → handleAIStatus st = some f →
      runPipeline env =
        (finalReturn (.str c1) (xs.filter entryValid) m,
          [Stage.facts, Stage.hpi, Stage.criteria, Stage.mapping, Stage.audit])) := by
  refine ⟨?_, ?_, ?_, ?_, ?_, ?_⟩
  · intro st c s msg hfc hstat
    have hres : resolveAI env.factsCall
        (fun st => "AI Gateway returned " ++ toString st ++
          " during facts extraction") = .error (.resp s msg) := by
      simp only [resolveAI, hfc]
      rw [if_neg (by rw [handleAIStatus_not_ok hstat]; simp)]
      simp only [hstat]
    have hrp : runPipeline env = (.error (.resp s msg), [Stage.facts]) := by
      rw [runPipeline_pre env hval hhp hmcg k hkey er her hp hhp2 mcg hmcg2]
      simp only [hres]
    rw [handler_of_runPipeline env hrp]
    rfl
  · intro st1 c1 st2 c2 s msg hfacts h1 h2 hstat
    have haf : afterFacts env = (.error (.resp s msg), [Stage.hpi, Stage.criteria]) := by
      simp only [afterFacts, h1, h2]
      rw [if_pos (handleAIStatus_not_ok hstat)]
      simp only [hstat]
    have hrp : runPipeline env =
        (.error (.resp s msg), [Stage.facts, Stage.hpi, Stage.criteria]) := by
      rw [runPipeline_afterFacts env hval hhp hmcg k hkey er her hp hhp2 mcg hmcg2
        hfacts, haf]
      rfl
    rw [handler_of_runPipeline env hrp]
    rfl
  · intro st1 c1 st2 c2 s msg hfacts h1 h2 hok1 hstat
    have haf : afterFacts env = (.error (.resp s msg), [Stage.hpi, Stage.criteria]) := by
      simp only [afterFacts, h1, h2]
      rw [if_neg (by rw [hok1]; simp), if_pos (handleAIStatus_not_ok hstat)]
      simp only [hstat]
    have hrp : runPipeline env =
        (.error (.resp s msg), [Stage.facts, Stage.hpi, Stage.criteria]) := by
      rw [runPipeline_afterFacts env hval hhp hmcg k hkey er her hp hhp2 mcg hmcg2
        hfacts, haf]
      rfl
    rw [handler_of_runPipeline env hrp]
    rfl
  · intro st1 c1 st2 c2 xs st c s msg hfacts h1 h2 hok1 hok2 hparse hmc hstat
    have hmres : resolveAI env.mappingCall
        (fun st => "AI Gateway returned " ++ toString st) = .error (.resp s msg) := by
      simp only [resolveAI, hmc]
      rw [if_neg (by rw [handleAIStatus_not_ok hstat]; simp)]
      simp only [hstat]
    have hrp : runPipeline env =
        (.error (.resp s msg),
          [Stage.facts, Stage.hpi, Stage.criteria, Stage.mapping]) := by
      rw [runPipeline_afterFacts env hval hhp hmcg k hkey er her hp hhp2 mcg hmcg2
        hfacts, afterFacts_join env st1 c1 st2 c2 h1 h2 hok1 hok2]
      simp only [criteriaStage, hparse, criteriaTail, mappingAndAudit, hmres]
      rfl
    rw [handler_of_runPipeline env hrp]
    rfl
  · intro st1 c1 st2 c2 st c f hfacts h1 h2 hok1 hok2 hparse hr hstat
    rw [runPipeline_afterFacts env hval hhp hmcg k hkey er her hp hhp2 mcg hmcg2
      hfacts, afterFacts_join env st1 c1 st2 c2 h1 h2 hok1 hok2]
    simp only [criteriaStage, hparse, hr]
    rw [if_neg (by rw [handleAIStatus_not_ok hstat]; simp)]
    rfl
  · intro st1 c1 st2 c2 xs m st c f hfacts h1 h2 hok1 hok2 hparse hmres ha hstat
    rw [runPipeline_afterFacts env hval hhp hmcg k hkey er her hp hhp2 mcg hmcg2
      hfacts, afterFacts_join env st1 c1 st2 c2 h1 h2 hok1 hok2]
    simp only [criteriaStage, hparse, criteriaTail_mapping_ok env c1 xs m hmres]
    have haudit : auditStage env c1 (xs.filter entryValid) m =
        finalReturn (.str c1) (xs.filter entryValid) m := by
      simp only [auditStage, ha]
      rw [if_neg (by rw [handleAIStatus_not_ok hstat]; simp)]
    rw [haudit]
    rfl

/-- C8, witness: the narrative-call conjunct applied at a concrete
environment (429 on the narrative call; the resolved gap-analysis response
is discarded). -/
theorem c8_quota_surfacing_witness :
    handler { envBase with hpiCall := .ok 429 "limit" } =
      (.error 429 "Rate limit exceeded, please try again later.",
        [Stage.facts, Stage.hpi, Stage.criteria]) :=
  (c8_quota_surfacing { envBase with hpiCall := .ok 429 "limit" }
      (Or.inl rfl) rfl rfl "key" rfl "er notes" rfl "text HPB64" rfl
      "text MCGB64" rfl).2.1 429 "limit" 200 "\x7bC\x7d" 429
      "Rate limit exceeded, please try again later."
      ⟨"\x7bF\x7d", .obj [("patient", .obj [])], rfl, rfl, rfl⟩ rfl rfl rfl

theorem finalReturn_ok (s : String) (mc : List JVal) (m : String)
    (hs : s ≠ "") (hm : m ≠ "") (mc' : List JVal)
    (hmc : sanitizeCriteria mc = .ok mc') :
    finalReturn (.str s) mc m = .ok (sanitizeHPIS s, mc', sanitizeMappingS m) := by
  unfold finalReturn
  rw [if_neg (by simp [truthy, hs, hm])]
  simp only [hmc]

/-- C1, counterexample.  The audit response parses and contains a truthy
`revised_hpi` but no `mapping_explanation`; the claim requires the returned
values to all equal the pre-audit values in this case, yet the returned
narrative is the audit's `"AUDITED"` (the sanitized pre-audit narrative is
`"HPI narrative"`) while the returned explanation is the pre-audit
`"MAP explanation"` — a mixture of audited and pre-audit values. -/
theorem c1_audit_counterexample :
    handler { envBase with
        jsonParse := fun l =>
          if l = "\x7bA\x7d".data then
            some (.obj [("revised_hpi", .str "AUDITED"), ("missing_criteria", .arr [])])
          else jpBase l,
        auditCall := .ok 200 "\x7bA\x7d" } =
      (.success "AUDITED" [] "MAP explanation",
        [Stage.facts, Stage.hpi, Stage.criteria, Stage.mapping, Stage.audit]) ∧
    sanitizeHPIS "HPI narrative" = "HPI narrative" ∧
    ("AUDITED" : String) ≠ "HPI narrative" := by
  refine ⟨rfl, rfl, by decide⟩

/-- C1, amended: with the pipeline succeeding through the mapping stage,
the self-audit behaves as follows.  (1) If the audit fetch rejects, the
whole request fails with a 500 carrying that error, and (2) if it times
out, with the 504 timeout response — the fallback does NOT cover these.
(3) If the audit response has a non-ok status, or (4) parses to nothing,
all three returned values are the pre-audit ones modulo sanitization.
(5) If it parses with truthy string `revised_hpi`, an array
`missing_criteria` and truthy string `mapping_explanation`, all three
returned values are the audit's (modulo sanitization and re-filtering).
When the parsed audit object carries only some of these fields the output
mixes audited and pre-audit values (see the counterexample). -/
theorem c1_audit_replacement (env : Env)
    (hval : otruthy env.body.erText = true ∨ otruthy env.body.erPdfBase64 = true)
    (hhp : otruthy env.body.hpPdfBase64 = true)
    (hmcg : otruthy env.body.mcgPdfBase64 = true)
    (k : String) (hkey : env.apiKey = some k)
    (er : String) (her : extractedER env = .ok er)
    (hp : String)
    (hhp2 : parsePdfBase64 env ((env.body.hpPdfBase64).getD "") "H&P" = .ok hp)
    (mcg : String)
    (hmcg2 : parsePdfBase64 env ((env.body.mcgPdfBase64).getD "")
      "MCG Guideline" = .ok mcg)
    (hfacts : FactsOk env)
    (st1 : Nat) (c1 : String) (st2 : Nat) (c2 : String)
    (h1 : env.hpiCall = .ok st1 c1) (h2 : env.criteriaCall = .ok st2 c2)
    (hok1 : okStatus st1 = true) (hok2 : okStatus st2 = true)
    (xs : List JVal) (hparse : parseCriteria env c2 = some xs)
    (m : String)
    (hm : resolveAI env.mappingCall
      (fun st => "AI Gateway returned " ++ toString st) = .ok m) :
    (∀ msg, env.auditCall = .netErr msg →
      handler env = (.error 500 msg,
        [Stage.facts, Stage.hpi, Stage.criteria, Stage.mapping, Stage.audit])) ∧
    (env.auditCall = .timeout →
      handler env =
        (.error 504 "AI processing timed out. Please try again with shorter documents.",
          [Stage.facts, Stage.hpi, Stage.criteria, Stage.mapping, Stage.audit])) ∧
    (∀ st c, env.auditCall = .ok st c → okStatus st = false →
      c1 ≠ "" → m ≠ "" →
      ∀ mc', sanitizeCriteria (xs.filter entryValid) = .ok mc' →
      handler env = (.success (sanitizeHPIS c1) mc' (sanitizeMappingS m),
        [Stage.facts, Stage.hpi, Stage.criteria, Stage.mapping, Stage.audit])) ∧
    (∀ st c, env.auditCall = .ok st c → okStatus st = true →
      extractJSON env.jsonParse c.data = none →
      c1 ≠ "" → m ≠ "" →
      ∀ mc', sanitizeCriteria (xs.filter entryValid) = .ok mc' →
      handler env = (.success (sanitizeHPIS c1) mc' (sanitizeMappingS m),
        [Stage.facts, Stage.hpi, Stage.criteria, Stage.mapping, Stage.audit])) ∧
    (∀ st c a ha xs' ma, env.auditCall = .ok st c → okStatus st = true →
      extractJSON env.jsonParse c.data = some a →
      jget a "revised_hpi" = some (.str ha) → ha ≠ "" →
      jget a "missing_criteria" = some (.arr xs') →
      jget a "mapping_explanation" = some (.str ma) → ma ≠ "" →
      ∀ mc', sanitizeCriteria (xs'.filter entryValid) = .ok mc' →
      handler env = (.success (sanitizeHPIS ha) mc' (sanitizeMappingS ma),
        [Stage.facts, Stage.hpi, Stage.criteria, Stage.mapping, Stage.audit])) := by
  have hbase : runPipeline env =
      (auditStage env c1 (xs.filter entryValid) m,
        [Stage.facts, Stage.hpi, Stage.criteria, Stage.mapping, Stage.audit]) := by
    rw [runPipeline_afterFacts env hval hhp hmcg k hkey er her hp hhp2 mcg hmcg2
      hfacts, afterFacts_join env st1 c1 st2 c2 h1 h2 hok1 hok2]
    simp only [criteriaStage, hparse, criteriaTail_mapping_ok env c1 xs m hm]
    rfl
  refine ⟨?_, ?_, ?_, ?_, ?_⟩
  · intro msg ha
    have haudit : auditStage env c1 (xs.filter entryValid) m =
        .error (.thrown msg) := by
      simp only [auditStage, ha]
    rw [handler_of_runPipeline env (haudit ▸ hbase)]
    rfl
  · intro ha
    have haudit : auditStage env c1 (xs.filter entryValid) m = .error .aborted := by
      simp only [auditStage, ha]
    rw [handler_of_runPipeline env (haudit ▸ hbase)]
    rfl
  · intro st c ha hok hc1 hmne mc' hmc
    have haudit : auditStage env c1 (xs.filter entryValid) m =
        .ok (sanitizeHPIS c1, mc', sanitizeMappingS m) := by
      simp only [auditStage, ha]
      rw [if_neg (by rw [hok]; simp)]
      exact finalReturn_ok c1 _ m hc1 hmne mc' hmc
    rw [handler_of_runPipeline env (haudit ▸ hbase)]
    rfl
  · intro st c ha hok hej hc1 hmne mc' hmc
    have haudit : auditStage env c1 (xs.filter entryValid) m =
        .ok (sanitizeHPIS c1, mc', sanitizeMappingS m) := by
      simp only [auditStage, ha]
      rw [if_pos hok]
      simp only [hej]
      exact finalReturn_ok c1 _ m hc1 hmne mc' hmc
    rw [handler_of_runPipeline env (haudit ▸ hbase)]
    rfl
  · intro st c a ha xs' ma hac hok hej hrh hha hmcf hme hmane mc' hmc
    have haudit : auditStage env c1 (xs.filter entryValid) m =
        .ok (sanitizeHPIS ha, mc', sanitizeMappingS ma) := by
      simp only [auditStage, hac]
      rw [if_pos hok]
      simp only [hej, hrh, hme, hmcf]
      rw [if_pos (by simp [truthyO, truthy, hmane])]
      rw [if_pos (by simp [truthyO, truthy, hha])]
      simp only [Option.getD, strOrEmpty, hmc]
    rw [handler_of_runPipeline env (haudit ▸ hbase)]
    rfl

/-- C1, witness: the audit-fetch-rejection conjunct applied at a concrete
environment. -/
theorem c1_audit_replacement_witness :
    handler { envBase with auditCall := .netErr "fetch failed" } =
      (.error 500 "fetch failed",
        [Stage.facts, Stage.hpi, Stage.criteria, Stage.mapping, Stage.audit]) :=
  (c1_audit_replacement { envBase with auditCall := .netErr "fetch failed" }
      (Or.inl rfl) rfl rfl "key" rfl "er notes" rfl "text HPB64" rfl
      "text MCGB64" rfl
      ⟨"\x7bF\x7d", .obj [("patient", .obj [])], rfl, rfl, rfl⟩
      200 "HPI narrative" 200 "\x7bC\x7d" rfl rfl rfl rfl
      [.obj [("mcg_clause", .str "Clause A"), ("status", .str "Not documented"),
        ("evidence_in_notes", .str "None"), ("required_documentation", .str "Doc")]]
      rfl "MAP explanation" rfl).1 "fetch failed" rfl

/-! ### Gap-entry invariants on the final list (claim C2) -/

theorem lookup_setField_self (fields : List (String × JVal)) (key : String) (v : JVal) :
    (setField fields key v).lookup key = some v := by
  induction fields with
  | nil => simp [setField, List.lookup]
  | cons p fields ih =>
    rcases p with ⟨k, w⟩
    rw [setField]
    split
    · simp [List.lookup]
    · rename_i hk
      have hke : (key == k) = false := by
        simp only [beq_eq_false_iff_ne, ne_eq]
        exact fun h => hk h.symm
      simp [List.lookup, hke, ih]

theorem lookup_setField_ne (fields : List (String × JVal)) (key k2 : String) (v : JVal)
    (hne : k2 ≠ key) : (setField fields key v).lookup k2 = fields.lookup k2 := by
  induction fields with
  | nil =>
    have hke : (k2 == key) = false := by
      simp only [beq_eq_false_iff_ne, ne_eq]
      exact hne
    simp [setField, List.lookup, hke]
  | cons p fields ih =>
    rcases p with ⟨k, w⟩
    rw [setField]
    split
    · rename_i hk
      subst hk
      have hke : (k2 == k) = false := by
        simp only [beq_eq_false_iff_ne, ne_eq]
        exact hne
      simp [List.lookup, hke]
    · simp [List.lookup, ih]

theorem validStatus_elim {o : Option JVal} (h : validStatus o = true) :
    ∃ s, o = some (.str s) ∧
      (s = "Not documented" ∨ s = "Insufficient detail" ∨
        s = "Unable to determine") := by
  rcases o with _ | v
  · cases h
  · rcases v with s | q | b | _ | xs | fs
    · exact ⟨s, rfl, of_decide_eq_true h⟩
    · cases h
    · cases h
    · cases h
    · cases h
    · cases h

theorem jget_eq_lookup_of_valid {c₀ : JVal}
    (h : truthyO (jget c₀ "mcg_clause") = true) (key : String) :
    jget c₀ key = (jfields c₀).lookup key := by
  rcases c₀ with s | q | b | _ | xs | fs
  · cases h
  · cases h
  · cases h
  · cases h
  · cases h
  · rfl

/-- What `sanitizeEntry` guarantees about a filter-surviving entry: the
status field is untouched (one of the three literals) and the clause field
is a string — possibly blank after markdown-stripping and trimming. -/
theorem sanitizeEntry_fields {c₀ c : JVal} (hv : entryValid c₀ = true)
    (h : sanitizeEntry c₀ = .ok c) :
    (∃ s, jget c "status" = some (.str s) ∧
      (s = "Not documented" ∨ s = "Insufficient detail" ∨
        s = "Unable to determine")) ∧
    (∃ t, jget c "mcg_clause" = some (.str t)) := by
  have hv1 : truthyO (jget c₀ "mcg_clause") = true := by
    unfold entryValid at hv
    exact ((Bool.and_eq_true _ _).mp hv).1
  have hv2 : validStatus (jget c₀ "status") = true := by
    unfold entryValid at hv
    exact ((Bool.and_eq_true _ _).mp hv).2
  rw [sanitizeEntry] at h
  split at h
  · rename_i a b d ha hb hd
    injection h with h1
    subst h1
    constructor
    · rcases validStatus_elim hv2 with ⟨s, hs, hmem⟩
      refine ⟨s, ?_, hmem⟩
      show (setField _ "required_documentation" _).lookup "status" = _
      rw [lookup_setField_ne _ _ _ _ (by decide),
        lookup_setField_ne _ _ _ _ (by decide),
        lookup_setField_ne _ _ _ _ (by decide),
        ← jget_eq_lookup_of_valid hv1, hs]
    · refine ⟨trimS (stripMarkdownS a), ?_⟩
      show (setField _ "required_documentation" _).lookup "mcg_clause" = _
      rw [lookup_setField_ne _ _ _ _ (by decide),
        lookup_setField_ne _ _ _ _ (by decide),
        lookup_setField_self]
  · cases h

theorem sanitizeCriteria_mem {l mc : List JVal} (h : sanitizeCriteria l = .ok mc) :
    ∀ c ∈ mc, ∃ c₀ ∈ l, sanitizeEntry c₀ = .ok c := by
  induction l generalizing mc with
  | nil =>
    rw [sanitizeCriteria] at h
    injection h with h1
    subst h1
    intro c hc
    cases hc
  | cons a l ih =>
    rw [sanitizeCriteria] at h
    split at h
    · cases h
    · rename_i a' ha'
      split at h
      · cases h
      · rename_i rest' hrest
        injection h with h1
        subst h1
        intro c hc
        rcases List.mem_cons.mp hc with rfl | hc'
        · exact ⟨a, List.mem_cons_self a l, ha'⟩
        · rcases ih hrest c hc' with ⟨c₀, hc₀, hs⟩
          exact ⟨c₀, List.mem_cons_of_mem _ hc₀, hs⟩

theorem finalReturn_ok_inv {rHPI : JVal} {mcIn : List JVal} {mapping : String}
    {out : String × List JVal × String}
    (h : finalReturn rHPI mcIn mapping = .ok out) :
    sanitizeCriteria mcIn = .ok out.2.1 := by
  unfold finalReturn at h
  split at h
  · exact absurd h (by simp)
  · split at h
    · split at h
      · exact absurd h (by simp)
      · rename_i mc' hmc
        injection h with h1
        rw [← h1]
        exact hmc
    · exact absurd h (by simp)

theorem fallbackValid (audited : JVal) (filtered : List JVal)
    (hf : ∀ c ∈ filtered, entryValid c = true) :
    ∀ c ∈ (match jget audited "missing_criteria" with
      | some (.arr xs) => xs.filter entryValid
      | _ => filtered), entryValid c = true := by
  rcases hj : jget audited "missing_criteria" with _ | v
  · exact hf
  · rcases v with s | q | b | _ | xs | fs
    · exact hf
    · exact hf
    · exact hf
    · exact hf
    · exact fun c hc => List.of_mem_filter hc
    · exact hf

theorem auditStage_ok {env : Env} {r : String} {filtered : List JVal}
    {mapping : String} {out : String × List JVal × String}
    (hf : ∀ c ∈ filtered, entryValid c = true)
    (h : auditStage env r filtered mapping = .ok out) :
    ∃ l, (∀ c ∈ l, entryValid c = true) ∧ sanitizeCriteria l = .ok out.2.1 := by
  unfold auditStage at h
  split at h
  · exact absurd h (by simp)
  · exact absurd h (by simp)
  · split at h
    · split at h
      · rename_i audited hext
        split at h
        · split at h
          · split at h
            · split at h
              · rename_i mc' hmc
                injection h with h1
                refine ⟨_, fallbackValid audited filtered hf, ?_⟩
                rw [← h1]
                exact hmc
              · exact absurd h (by simp)
            · exact absurd h (by simp)
          · exact absurd h (by simp)
        · exact ⟨_, fallbackValid audited filtered hf, finalReturn_ok_inv h⟩
      · exact ⟨_, hf, finalReturn_ok_inv h⟩
    · exact ⟨_, hf, finalReturn_ok_inv h⟩

theorem mappingAndAudit_ok {env : Env} {r : String} {filtered : List JVal}
    {out : String × List JVal × String}
    (hf : ∀ c ∈ filtered, entryValid c = true)
    (h : (mappingAndAudit env r filtered).1 = .ok out) :
    ∃ l, (∀ c ∈ l, entryValid c = true) ∧ sanitizeCriteria l = .ok out.2.1 := by
  unfold mappingAndAudit at h
  split at h
  · exact absurd h (by simp)
  · exact auditStage_ok hf h

theorem criteriaTail_ok {env : Env} {r : String} {mc : List JVal}
    {out : String × List JVal × String}
    (h : (criteriaTail env r mc).1 = .ok out) :
    ∃ l, (∀ c ∈ l, entryValid c = true) ∧ sanitizeCriteria l = .ok out.2.1 :=
  mappingAndAudit_ok (fun _ hc => List.of_mem_filter hc) h

theorem criteriaStage_ok {env : Env} {c1 c2 : String}
    {out : String × List JVal × String}
    (h : (criteriaStage env c1 c2).1 = .ok out) :
    ∃ l, (∀ c ∈ l, entryValid c = true) ∧ sanitizeCriteria l = .ok out.2.1 := by
  unfold criteriaStage at h
  split at h
  · exact criteriaTail_ok h
  · split at h
    · exact absurd h (by simp)
    · exact absurd h (by simp)
    · exact criteriaTail_ok h

theorem afterFacts_ok {env : Env} {out : String × List JVal × String}
    (h : (afterFacts env).1 = .ok out) :
    ∃ l, (∀ c ∈ l, entryValid c = true) ∧ sanitizeCriteria l = .ok out.2.1 := by
  unfold afterFacts at h
  split at h
  · exact absurd h (by simp)
  · exact absurd h (by simp)
  · exact absurd h (by simp)
  · exact absurd h (by simp)
  · split at h
    · split at h
      · exact absurd h (by simp)
      · exact absurd h (by simp)
    · split at h
      · split at h
        · exact absurd h (by simp)
        · exact absurd h (by simp)
      · exact criteriaStage_ok h

theorem runPipeline_ok {env : Env} {hpi : String} {mc : List JVal} {m : String}
    {log : List Stage}
    (h : runPipeline env = (.ok (hpi, mc, m), log)) :
    ∃ l, (∀ c ∈ l, entryValid c = true) ∧ sanitizeCriteria l = .ok mc := by
  have h1 : (runPipeline env).1 = .ok (hpi, mc, m) := by rw [h]
  unfold runPipeline at h1
  repeat' split at h1
  all_goals first
    | exact absurd h1 (by simp)
    | exact afterFacts_ok h1

theorem handler_success {env : Env} {hpi : String} {mc : List JVal} {m : String}
    {log : List Stage} (h : handler env = (.success hpi mc m, log)) :
    runPipeline env = (.ok (hpi, mc, m), log) := by
  rcases hr : runPipeline env with ⟨r, lg⟩
  rw [handler_of_runPipeline env hr] at h
  rcases r with f | ⟨a, b, c⟩
  · rcases f <;> (injection h with ha hb; exact absurd ha (by simp [respOf, failureResp]))
  · injection h with ha hb
    injection ha with e1 e2 e3
    subst e1
    subst e2
    subst e3
    subst hb
    rfl

/-- A JSON.parse oracle whose criteria entry carries the clause text "*":
truthy, so the entry survives the validity filter, but markdown-stripping
then erases it. -/
def jpC2 : List Char → Option JVal := fun l =>
  if l = "\x7bF\x7d".data then some (.obj [("patient", .obj [])])
  else if l = "\x7bC\x7d".data then some (.obj [("missing_criteria", .arr
    [.obj [("mcg_clause", .str "*"), ("status", .str "Not documented"),
           ("evidence_in_notes", .str "None"),
           ("required_documentation", .str "Doc")]])])
  else none

def envC2 : Env := { envBase with jsonParse := jpC2 }

/-- C2, counterexample.  The filter (line 514) tests the clause *before*
sanitization: the clause "*" is truthy, so its entry is kept, and the
subsequent markdown-stripping (lines 588-592) erases it to the blank
string.  The final returned list therefore contains a gap entry whose
clause text is blank, contradicting the claim that every surfaced entry
has a non-blank clause. -/
theorem c2_filter_counterexample :
    handler envC2 =
      (.success "HPI narrative"
        [.obj [("mcg_clause", .str ""), ("status", .str "Not documented"),
               ("evidence_in_notes", .str "None"),
               ("required_documentation", .str "Doc")]]
        "MAP explanation",
        [Stage.facts, Stage.hpi, Stage.criteria, Stage.mapping, Stage.audit]) ∧
    jget (.obj [("mcg_clause", .str ""), ("status", .str "Not documented"),
               ("evidence_in_notes", .str "None"),
               ("required_documentation", .str "Doc")]) "mcg_clause" =
      some (.str "") :=
  ⟨rfl, rfl⟩

/-- C2 (amended).  Every gap entry in the final returned list — on the
pre-audit and the post-audit paths alike — has a status field that is one
of exactly the three literals and a clause field that is a string, and it
is the sanitization of an entry that passed the truthy-clause/valid-status
filter.  The clause string may however be blank: the filter runs before
markdown-stripping, so a clause made of markdown characters only is kept
and then erased (the original non-blank-clause claim fails). -/
theorem c2_final_status (env : Env) (hpi : String) (mc : List JVal) (m : String)
    (log : List Stage) (h : handler env = (.success hpi mc m, log)) :
    ∀ c ∈ mc,
      (∃ s, jget c "status" = some (.str s) ∧
        (s = "Not documented" ∨ s = "Insufficient detail" ∨
          s = "Unable to determine")) ∧
      (∃ t, jget c "mcg_clause" = some (.str t)) ∧
      (∃ c₀, entryValid c₀ = true ∧ sanitizeEntry c₀ = .ok c) := by
  have hr := handler_success h
  rcases runPipeline_ok hr with ⟨l, hl, hs⟩
  intro c hc
  rcases sanitizeCriteria_mem hs c hc with ⟨c₀, hc₀, hse⟩
  have hval := hl c₀ hc₀
  rcases sanitizeEntry_fields hval hse with ⟨h1, h2⟩
  exact ⟨h1, h2, c₀, hval, hse⟩

/-- C2, witness: the amended theorem evaluated on the base environment,
whose one surfaced entry keeps status "Not documented" and clause
"Clause A". -/
theorem c2_final_status_witness :
    (∃ s, jget (.obj [("mcg_clause", .str "Clause A"),
        ("status", .str "Not documented"), ("evidence_in_notes", .str "None"),
        ("required_documentation", .str "Doc")]) "status" = some (.str s) ∧
      (s = "Not documented" ∨ s = "Insufficient detail" ∨
        s = "Unable to determine")) ∧
    (∃ t, jget (.obj [("mcg_clause", .str "Clause A"),
        ("status", .str "Not documented"), ("evidence_in_notes", .str "None"),
        ("required_documentation", .str "Doc")]) "mcg_clause" =
      some (.str t)) ∧
    (∃ c₀, entryValid c₀ = true ∧ sanitizeEntry c₀ = .ok
      (.obj [("mcg_clause", .str "Clause A"), ("status", .str "Not documented"),
        ("evidence_in_notes", .str "None"),
        ("required_documentation", .str "Doc")])) :=
  c2_final_status envBase "HPI narrative"
    [.obj [("mcg_clause", .str "Clause A"), ("status", .str "Not documented"),
      ("evidence_in_notes", .str "None"), ("required_documentation", .str "Doc")]]
    "MAP explanation"
    [Stage.facts, Stage.hpi, Stage.criteria, Stage.mapping, Stage.audit] rfl
    _ (List.mem_singleton.mpr rfl)

end OptimizeClinicalDoc
